import Mathlib

/-!
Shallow embedding of the validation engine in src/lib/validate.ts of the
Data-Alchemist repository, together with proofs about it.

Rows arrive as loosely typed field maps whose values are strings, numbers
or absent.  JavaScript numbers are modelled as an inductive with NaN, the
two infinities and finite rationals; the float-specific rounding of IEEE
doubles plays no role in any statement proved here, every concrete value
being a small integer.  Exceptions (the only reachable one is the
TypeError raised by calling split on a number) are modelled with Except.
-/

/-- JavaScript number: NaN, Infinity, -Infinity, or a finite value
(modelled as a rational). -/
inductive JSNum where
  | nan
  | inf
  | ninf
  | fin (q : ℚ)
deriving DecidableEq, Repr

/-- The isNaN predicate on JavaScript numbers. -/
def JSNum.isNaN : JSNum → Bool
  | .nan => true
  | _ => false

/-- Rational addition, written out on numerators and denominators so that
it reduces inside the kernel (the library's extern arithmetic does not). -/
def ratAdd (a b : ℚ) : ℚ := Rat.divInt (a.num * b.den + b.num * a.den) (a.den * b.den)

/-- Kernel-reducible rational multiplication. -/
def ratMul (a b : ℚ) : ℚ := Rat.divInt (a.num * b.num) (a.den * b.den)

/-- Kernel-reducible rational division. -/
def ratDiv (a b : ℚ) : ℚ := Rat.divInt (a.num * b.den) (a.den * b.num)

/-- Kernel-reducible rational negation. -/
def ratNeg (a : ℚ) : ℚ := Rat.divInt (-a.num) a.den

/-- Kernel-reducible power of ten. -/
def ratPow10 (k : Nat) : ℚ := Rat.divInt (Int.ofNat (10 ^ k)) 1

/-- JavaScript addition: NaN is absorbing, Infinity + -Infinity is NaN. -/
def JSNum.add : JSNum → JSNum → JSNum
  | .nan, _ => .nan
  | _, .nan => .nan
  | .inf, .ninf => .nan
  | .ninf, .inf => .nan
  | .inf, _ => .inf
  | _, .inf => .inf
  | .ninf, _ => .ninf
  | _, .ninf => .ninf
  | .fin a, .fin b => .fin (ratAdd a b)

/-- JavaScript strict less-than: any comparison with NaN is false. -/
def JSNum.lt : JSNum → JSNum → Bool
  | .nan, _ => false
  | _, .nan => false
  | .inf, _ => false
  | .ninf, .ninf => false
  | .ninf, _ => true
  | .fin _, .ninf => false
  | .fin _, .inf => true
  | .fin a, .fin b => decide (a < b)

/-- JavaScript greater-than. -/
def JSNum.gt (a b : JSNum) : Bool := JSNum.lt b a

/-- JavaScript less-or-equal: any comparison with NaN is false. -/
def JSNum.le : JSNum → JSNum → Bool
  | .nan, _ => false
  | _, .nan => false
  | .ninf, _ => true
  | _, .inf => true
  | .inf, _ => false
  | .fin _, .ninf => false
  | .fin a, .fin b => decide (a ≤ b)

/-- Truthiness of a JavaScript number: NaN and 0 are falsy. -/
def JSNum.truthy : JSNum → Bool
  | .nan => false
  | .fin q => decide (q ≠ 0)
  | _ => true

/-- An untyped cell value of a row: a string, a number, or absent
(the JavaScript undefined). -/
inductive Value where
  | str (s : String)
  | num (n : JSNum)
  | absent
deriving DecidableEq, Repr

/-- JavaScript truthiness of a cell value. -/
def Value.truthy : Value → Bool
  | .str s => !s.isEmpty
  | .num n => n.truthy
  | .absent => false

/-- The nullish-coalescing operator: falls back only on absent values,
never on empty strings, 0 or NaN. -/
def coalesce (v d : Value) : Value :=
  match v with
  | .absent => d
  | _ => v

/-- White space stripped by the JavaScript trim operation (the ASCII
white-space characters plus no-break space and the BOM; the rarer Unicode
space separators are not modelled, no statement touches them). -/
def isJsSpace (c : Char) : Bool :=
  c = ' ' || c = '\t' || c = '\n' || c = '\r' ||
    c.val = 11 || c.val = 12 || c.val = 160 || c.val = 65279

/-- The JavaScript string trim operation. -/
def jsTrim (s : String) : String :=
  String.mk (((s.data.dropWhile isJsSpace).reverse.dropWhile isJsSpace).reverse)

/-- Splits the longest prefix of decimal digits off a character list. -/
def takeDigits : List Char → List Char × List Char
  | [] => ([], [])
  | c :: cs =>
    if c.isDigit then
      let p := takeDigits cs
      (c :: p.1, p.2)
    else ([], c :: cs)

/-- Numeric value of a list of decimal digits. -/
def digitsVal (l : List Char) : Nat :=
  l.foldl (fun a c => a * 10 + (c.toNat - 48)) 0

/-- Value of a single hexadecimal digit. -/
def hexVal (c : Char) : Option Nat :=
  if c.isDigit then some (c.toNat - 48)
  else if 'a' ≤ c ∧ c ≤ 'f' then some (c.toNat - 87)
  else if 'A' ≤ c ∧ c ≤ 'F' then some (c.toNat - 55)
  else none

/-- Value of a digit string in the given radix (used for the 0x, 0o and 0b
integer literal forms accepted by the JavaScript Number conversion). -/
def radixValAux (base : Nat) : List Char → Nat → Option Nat
  | [], acc => some acc
  | c :: cs, acc =>
    match hexVal c with
    | some d => if d < base then radixValAux base cs (acc * base + d) else none
    | none => none

/-- The character list of the literal word Infinity. -/
def strInfinity : List Char := ['I', 'n', 'f', 'i', 'n', 'i', 't', 'y']

/-- Exponent tail of a decimal numeric string, for the Number conversion:
the whole remainder must be consumed. -/
def numExpTail (m : ℚ) (cs : List Char) : JSNum :=
  let p : Bool × List Char :=
    match cs with
    | '+' :: t => (false, t)
    | '-' :: t => (true, t)
    | t => (false, t)
  let d := takeDigits p.2
  if d.1.isEmpty ∨ ¬ d.2.isEmpty then .nan
  else .fin (if p.1 then ratDiv m (ratPow10 (digitsVal d.1)) else ratMul m (ratPow10 (digitsVal d.1)))

/-- Decimal part of the JavaScript Number conversion of a trimmed,
non-empty string: optional sign, then Infinity or a decimal literal with
optional fraction and exponent; anything else is NaN. -/
def decStrToNumber (cs0 : List Char) : JSNum :=
  let sp : Bool × List Char :=
    match cs0 with
    | '+' :: r => (false, r)
    | '-' :: r => (true, r)
    | r => (false, r)
  if sp.2 = strInfinity then (if sp.1 then .ninf else .inf)
  else
    let ipr := takeDigits sp.2
    let fpr : List Char × List Char :=
      match ipr.2 with
      | '.' :: r => takeDigits r
      | _ => ([], ipr.2)
    if ipr.1.isEmpty ∧ fpr.1.isEmpty then .nan
    else
      let mant : ℚ := ratAdd (digitsVal ipr.1 : ℚ) (ratDiv (digitsVal fpr.1 : ℚ) (ratPow10 fpr.1.length))
      let mant := if sp.1 then ratNeg mant else mant
      match fpr.2 with
      | [] => .fin mant
      | 'e' :: r3 => numExpTail mant r3
      | 'E' :: r3 => numExpTail mant r3
      | _ => .nan

/-- The JavaScript Number conversion of a string: trim, empty means 0,
then a radix-prefixed integer literal or a signed decimal literal. -/
def strToNumber (s : String) : JSNum :=
  let t := jsTrim s
  if t.isEmpty then .fin 0
  else
    match t.data with
    | '0' :: c :: r =>
      if (c = 'x' ∨ c = 'X') ∧ ¬ r.isEmpty then
        match radixValAux 16 r 0 with
        | some n => .fin n
        | none => .nan
      else if (c = 'o' ∨ c = 'O') ∧ ¬ r.isEmpty then
        match radixValAux 8 r 0 with
        | some n => .fin n
        | none => .nan
      else if (c = 'b' ∨ c = 'B') ∧ ¬ r.isEmpty then
        match radixValAux 2 r 0 with
        | some n => .fin n
        | none => .nan
      else decStrToNumber t.data
    | _ => decStrToNumber t.data

/-- The JavaScript Number conversion of a cell value: undefined converts
to NaN, numbers are unchanged, strings are parsed. -/
def toNumber : Value → JSNum
  | .str s => strToNumber s
  | .num n => n
  | .absent => .nan

example : toNumber (.str "5") = .fin 5 := by decide
example : toNumber (.str " 3.5 ") = .fin (mkRat 7 2) := by decide
example : toNumber (.str "Infinity") = .inf := by decide
example : toNumber (.str "abc") = .nan := by decide
example : toNumber (.str "") = .fin 0 := by decide
example : toNumber .absent = .nan := by decide
example : toNumber (.str "0x10") = .fin 16 := by decide
example : toNumber (.str "2e2") = .fin 200 := by decide

/-- Smallest decimal exponent that clears a rational's denominator,
searched with a fuel bound (always found for values produced by decimal
parsing, whose denominators divide a power of ten). -/
def decExpSearch (q : ℚ) : Nat → Nat → Option Nat
  | _, 0 => none
  | k, n + 1 => if (ratMul q (ratPow10 k)).den = 1 then some k else decExpSearch q (k + 1) n

/-- Decimal rendering of a finite JavaScript number, as produced by the
ToString conversion.  The exponent forms used for very large or tiny
magnitudes are not modelled, and a value with an infinite decimal
expansion (unreachable from parsed input) falls back to a fraction
rendering. -/
def ratDecimalStr (q : ℚ) : String :=
  match decExpSearch q 0 64 with
  | none => toString q.num ++ "/" ++ toString q.den
  | some 0 => (if q.num < 0 then "-" else "") ++ toString q.num.natAbs
  | some k =>
    let cs := (toString (ratMul q (ratPow10 k)).num.natAbs).data
    let cs := if cs.length ≤ k then List.replicate (k + 1 - cs.length) '0' ++ cs else cs
    (if q.num < 0 then "-" else "") ++
      String.mk (cs.take (cs.length - k)) ++ "." ++ String.mk (cs.drop (cs.length - k))

/-- The JavaScript ToString conversion of a number. -/
def JSNum.render : JSNum → String
  | .nan => "NaN"
  | .inf => "Infinity"
  | .ninf => "-Infinity"
  | .fin q => ratDecimalStr q

example : JSNum.render (.fin 12) = "12" := by decide
example : JSNum.render (.fin (mkRat 1 2)) = "0.5" := by decide
example : JSNum.render (.fin (-3)) = "-3" := by decide

/-- The toString method of a cell value, as used by the identity check of
the validators.  The absent case is unreachable there: the check
evaluates toString only on truthy values. -/
def Value.toStr : Value → String
  | .str s => s
  | .num n => n.render
  | .absent => "undefined"

/-- The test applied to a natural identifier by every validator, reading
rowId is falsy, or rowId.toString().trim() is empty. -/
def idMissing (v : Value) : Bool := !v.truthy || jsTrim v.toStr == ""

example : idMissing (.str "") = true := by decide
example : idMissing (.str "   ") = true := by decide
example : idMissing .absent = true := by decide
example : idMissing (.str "C1") = false := by decide

/-- A JSON value, the result of a successful JSON.parse. -/
inductive JSON where
  | null
  | bool (b : Bool)
  | num (q : ℚ)
  | str (s : String)
  | arr (elems : List JSON)
  | obj (fields : List (String × JSON))

/-- The double-quote character. -/
def quoteChar : Char := Char.ofNat 34

/-- The backslash character. -/
def backslashChar : Char := Char.ofNat 92

/-- The left curly bracket character. -/
def lbraceChar : Char := Char.ofNat 123

/-- The right curly bracket character. -/
def rbraceChar : Char := Char.ofNat 125

/-- JSON insignificant white space: space, tab, line feed, carriage
return. -/
def isJsonWs (c : Char) : Bool :=
  c = ' ' || c = '\t' || c = '\n' || c = '\r'

/-- Skips JSON white space. -/
def skipWs (cs : List Char) : List Char := cs.dropWhile isJsonWs

/-- The single-character JSON string escapes. -/
def escapeChar (c : Char) : Option Char :=
  if c = quoteChar then some quoteChar
  else if c = backslashChar then some backslashChar
  else if c = '/' then some '/'
  else if c = 'b' then some (Char.ofNat 8)
  else if c = 'f' then some (Char.ofNat 12)
  else if c = 'n' then some (Char.ofNat 10)
  else if c = 'r' then some (Char.ofNat 13)
  else if c = 't' then some (Char.ofNat 9)
  else none

/-- Scans a JSON string body up to its closing quote, decoding escapes;
returns the decoded characters and the remaining input. -/
def parseJsonStrAux : List Char → Option (List Char × List Char)
  | [] => none
  | c :: r =>
    if c = quoteChar then some ([], r)
    else if c = backslashChar then
      match r with
      | [] => none
      | e :: r2 =>
        if e = 'u' then
          match r2 with
          | h1 :: h2 :: h3 :: h4 :: r3 =>
            match hexVal h1, hexVal h2, hexVal h3, hexVal h4 with
            | some a, some b, some c3, some d =>
              match parseJsonStrAux r3 with
              | some p => some (Char.ofNat (((a * 16 + b) * 16 + c3) * 16 + d) :: p.1, p.2)
              | none => none
            | _, _, _, _ => none
          | _ => none
        else
          match escapeChar e with
          | some ec =>
            match parseJsonStrAux r2 with
            | some p => some (ec :: p.1, p.2)
            | none => none
          | none => none
    else if c.val < 32 then none
    else
      match parseJsonStrAux r with
      | some p => some (c :: p.1, p.2)
      | none => none

/-- Parses a JSON string literal after its opening quote. -/
def parseJsonStr (cs : List Char) : Option (String × List Char) :=
  match parseJsonStrAux cs with
  | some p => some (String.mk p.1, p.2)
  | none => none

/-- Exponent tail of a JSON number literal. -/
def parseExpPart (m : ℚ) (cs : List Char) : Option (JSON × List Char) :=
  let p : Bool × List Char :=
    match cs with
    | '+' :: t => (false, t)
    | '-' :: t => (true, t)
    | t => (false, t)
  let d := takeDigits p.2
  if d.1.isEmpty then none
  else some (.num (if p.1 then ratDiv m (ratPow10 (digitsVal d.1)) else ratMul m (ratPow10 (digitsVal d.1))), d.2)

/-- Parses a JSON number literal (after an already-consumed minus sign
when neg is true): an integer part without superfluous leading zeros,
an optional fraction, an optional exponent. -/
def parseJsonNum (neg : Bool) (cs : List Char) : Option (JSON × List Char) :=
  let ipr := takeDigits cs
  if ipr.1.isEmpty then none
  else if ipr.1.length > 1 ∧ ipr.1.head? = some '0' then none
  else
    let fracRes : Option (List Char × List Char) :=
      match ipr.2 with
      | '.' :: r =>
        let fpr := takeDigits r
        if fpr.1.isEmpty then none else some fpr
      | _ => some ([], ipr.2)
    match fracRes with
    | none => none
    | some (fp, r2) =>
      let mant : ℚ := ratAdd (digitsVal ipr.1 : ℚ) (ratDiv (digitsVal fp : ℚ) (ratPow10 fp.length))
      let mant := if neg then ratNeg mant else mant
      match r2 with
      | 'e' :: r3 => parseExpPart mant r3
      | 'E' :: r3 => parseExpPart mant r3
      | r3 => some (.num mant, r3)

mutual

/-- Parses one JSON value from the input; the fuel argument bounds the
recursion and is chosen large enough at the top entry point. -/
def parseVal : Nat → List Char → Option (JSON × List Char)
  | 0, _ => none
  | fuel + 1, cs =>
    match skipWs cs with
    | [] => none
    | c :: r =>
      if c = 'n' then
        match r with
        | 'u' :: 'l' :: 'l' :: r2 => some (.null, r2)
        | _ => none
      else if c = 't' then
        match r with
        | 'r' :: 'u' :: 'e' :: r2 => some (.bool true, r2)
        | _ => none
      else if c = 'f' then
        match r with
        | 'a' :: 'l' :: 's' :: 'e' :: r2 => some (.bool false, r2)
        | _ => none
      else if c = quoteChar then
        match parseJsonStr r with
        | some (s, r2) => some (.str s, r2)
        | none => none
      else if c = '[' then
        match skipWs r with
        | c2 :: r2 => if c2 = ']' then some (.arr [], r2) else parseElems fuel (c2 :: r2) []
        | [] => none
      else if c = lbraceChar then
        match skipWs r with
        | c2 :: r2 => if c2 = rbraceChar then some (.obj [], r2) else parseMembers fuel (c2 :: r2) []
        | [] => none
      else if c = '-' then
        parseJsonNum true r
      else if c.isDigit then
        parseJsonNum false (c :: r)
      else none

/-- Parses the comma-separated elements of a non-empty JSON array. -/
def parseElems : Nat → List Char → List JSON → Option (JSON × List Char)
  | 0, _, _ => none
  | fuel + 1, cs, acc =>
    match parseVal fuel cs with
    | none => none
    | some (v, r) =>
      match skipWs r with
      | ',' :: r2 => parseElems fuel r2 (acc ++ [v])
      | ']' :: r2 => some (.arr (acc ++ [v]), r2)
      | _ => none

/-- Parses the members of a non-empty JSON object. -/
def parseMembers : Nat → List Char → List (String × JSON) → Option (JSON × List Char)
  | 0, _, _ => none
  | fuel + 1, cs, acc =>
    match skipWs cs with
    | [] => none
    | c :: r =>
      if c = quoteChar then
        match parseJsonStr r with
        | none => none
        | some (k, r2) =>
          match skipWs r2 with
          | ':' :: r3 =>
            match parseVal fuel r3 with
            | none => none
            | some (v, r4) =>
              match skipWs r4 with
              | ',' :: r5 => parseMembers fuel r5 (acc ++ [(k, v)])
              | c2 :: r5 => if c2 = rbraceChar then some (.obj (acc ++ [(k, v)]), r5) else none
              | [] => none
          | _ => none
      else none

end

/-- JSON.parse on a string: parse one value and require the rest of the
input to be white space. -/
def jsonParse (s : String) : Option JSON :=
  match parseVal (2 * s.length + 4) s.data with
  | some (v, r) => if (skipWs r).isEmpty then some v else none
  | none => none

/-- JSON.parse applied to a cell value, as the validators do: the
argument is first converted to a string, so an absent value parses the
text undefined and fails, a finite number parses back to itself, and NaN
or the infinities fail. -/
def jsonParseVal : Value → Option JSON
  | .str s => jsonParse s
  | .num (.fin q) => some (.num q)
  | .num _ => none
  | .absent => none

example : jsonParse "[1]" = some (.arr [.num 1]) := rfl
example : jsonParse "[1,2]" = some (.arr [.num 1, .num 2]) := rfl
example : jsonParse "not json" = none := rfl
example : jsonParse "[1,2,3]" = some (.arr [.num 1, .num 2, .num 3]) := rfl

mutual

/-- Coercion of a JSON value to a property key, as performed when it is
used to index a JavaScript object: the ToString conversion. -/
def phaseKey : JSON → String
  | .null => "null"
  | .bool b => cond b "true" "false"
  | .num q => JSNum.render (.fin q)
  | .str s => s
  | .obj _ => "[object Object]"
  | .arr l => String.intercalate "," (phaseKeyList l)

/-- Array elements joined for ToString; null elements render empty
inside a join. -/
def phaseKeyList : List JSON → List String
  | [] => []
  | j :: js =>
    (match j with
     | .null => ""
     | x => phaseKey x) :: phaseKeyList js

end

example : phaseKey (.num 1) = "1" := by decide
example : phaseKey (.str "p2") = "p2" := by decide

/-- The table an error belongs to. -/
inductive Table where
  | clients
  | workers
  | tasks
deriving DecidableEq, Repr

/-- The message of a ValidationError.  The source stores plain strings;
each constructor stands for one of its template strings, with the
interpolated data carried as arguments:
clientIdRequired is "ClientID is required.",
duplicateClientId is "Duplicate ClientID.",
priorityBetween1And5 is "Priority must be between 1 and 5.",
invalidJsonFormat is "Invalid JSON format.",
workerIdRequired is "WorkerID is required.",
duplicateWorkerId is "Duplicate WorkerID.",
maxLoadPositive is "MaxLoad must be a number > 0.",
workerOverloaded m s interpolates m and s into
"Worker is overloaded: maxLoad m > available slots s",
validJsonArray is "Must be a valid JSON array.",
taskIdRequired is "TaskID is required.",
duplicateTaskId is "Duplicate TaskID.",
durationPositive is "Duration must be > 0.",
mustBeJsonArray is "Must be a JSON array.",
phaseOverbooked p d s interpolates p, d and s into
"Phase p is overbooked: demand d > supply s",
missingRequiredSkill k interpolates k into "Missing required skill: k". -/
inductive Msg where
  | clientIdRequired
  | duplicateClientId
  | priorityBetween1And5
  | invalidJsonFormat
  | workerIdRequired
  | duplicateWorkerId
  | maxLoadPositive
  | workerOverloaded (maxLoad : JSNum) (slots : Nat)
  | validJsonArray
  | taskIdRequired
  | duplicateTaskId
  | durationPositive
  | mustBeJsonArray
  | phaseOverbooked (phase : String) (demand supply : JSNum)
  | missingRequiredSkill (skill : String)
deriving DecidableEq, Repr

/-- A validation error.  The row field holds whatever untyped value the
source pushes there: the natural identifier, a positional index, the
absent value, or -1 for aggregate errors. -/
structure ValidationError where
  table : Table
  row : Value
  field : String
  message : Msg
deriving DecidableEq, Repr

/-- A row of an uploaded table: the fields the validation engine reads,
each an untyped cell value, absent when the column is not present. -/
structure Row where
  ClientID : Value := .absent
  PriorityLevel : Value := .absent
  AttributesJSON : Value := .absent
  WorkerID : Value := .absent
  MaxLoadPerPhase : Value := .absent
  AvailableSlots : Value := .absent
  Skills : Value := .absent
  TaskID : Value := .absent
  Duration : Value := .absent
  PreferredPhases : Value := .absent
  RequiredSkills : Value := .absent
deriving DecidableEq, Repr

/-- The identity block shared by the three per-entity validators: a falsy
or white-space identifier yields a required error keyed by the identifier
if non-nullish else by the positional index, an already-seen identifier
yields a duplicate error, and otherwise the identifier is recorded as
seen. -/
def idCheck (tbl : Table) (fieldName : String) (reqMsg dupMsg : Msg)
    (rowId : Value) (seen : List Value) (idx : Nat) : List ValidationError × List Value :=
  if idMissing rowId then
    ([⟨tbl, coalesce rowId (.num (.fin idx)), fieldName, reqMsg⟩], seen)
  else if seen.contains rowId then
    ([⟨tbl, rowId, fieldName, dupMsg⟩], seen)
  else
    ([], rowId :: seen)

/-- The identity block of one client row. -/
def clientIdCheck (seen : List Value) (idx : Nat) (row : Row) : List ValidationError × List Value :=
  idCheck .clients "ClientID" .clientIdRequired .duplicateClientId row.ClientID seen idx

/-- The PriorityLevel range block of one client row. -/
def clientPriorityErrors (row : Row) : List ValidationError :=
  let priority := toNumber row.PriorityLevel
  if priority.isNaN || priority.lt (.fin 1) || priority.gt (.fin 5) then
    [⟨.clients, row.ClientID, "PriorityLevel", .priorityBetween1And5⟩]
  else []

/-- The AttributesJSON block of one client row: only a truthy cell is
parsed, and any well-formed value passes. -/
def clientAttrErrors (row : Row) : List ValidationError :=
  if row.AttributesJSON.truthy then
    match jsonParseVal row.AttributesJSON with
    | some _ => []
    | none => [⟨.clients, row.ClientID, "AttributesJSON", .invalidJsonFormat⟩]
  else []

/-- The errors one client row contributes together with the updated set
of seen identifiers, mirroring one iteration of the forEach loop of
validateClients. -/
def clientRowErrors (seen : List Value) (idx : Nat) (row : Row) : List ValidationError × List Value :=
  let idPart := clientIdCheck seen idx row
  (idPart.1 ++ clientPriorityErrors row ++ clientAttrErrors row, idPart.2)

/-- The row scan shared by the three per-entity validators: each row
contributes its errors in order and passes the updated seen set on. -/
def scanRows (f : List Value → Nat → Row → List ValidationError × List Value)
    (seen : List Value) (idx : Nat) : List Row → List ValidationError
  | [] => []
  | r :: rs =>
    let p := f seen idx r
    p.1 ++ scanRows f p.2 (idx + 1) rs

/-- validateClients.  The source declares an optional second parameter
for the tasks table but never reads it. -/
def validateClients (rows : List Row) (tasks : List Row) : List ValidationError :=
  scanRows clientRowErrors [] 0 rows

/-- The identity block of one worker row. -/
def workerIdCheck (seen : List Value) (idx : Nat) (row : Row) : List ValidationError × List Value :=
  idCheck .workers "WorkerID" .workerIdRequired .duplicateWorkerId row.WorkerID seen idx

/-- The MaxLoadPerPhase range block of one worker row. -/
def workerLoadErrors (row : Row) : List ValidationError :=
  let maxLoad := toNumber row.MaxLoadPerPhase
  if maxLoad.isNaN || maxLoad.le (.fin 0) then
    [⟨.workers, row.WorkerID, "MaxLoadPerPhase", .maxLoadPositive⟩]
  else []

/-- The AvailableSlots block of one worker row: a truthy cell must parse
to an array; when it does and MaxLoadPerPhase parsed to a non-NaN value
exceeding the array length, the overload error is emitted on the
MaxLoadPerPhase field. -/
def workerSlotErrors (row : Row) : List ValidationError :=
  let maxLoad := toNumber row.MaxLoadPerPhase
  if row.AvailableSlots.truthy then
    match jsonParseVal row.AvailableSlots with
    | some (.arr slots) =>
      if !maxLoad.isNaN && maxLoad.gt (.fin (slots.length : ℚ)) then
        [⟨.workers, row.WorkerID, "MaxLoadPerPhase", .workerOverloaded maxLoad slots.length⟩]
      else []
    | _ => [⟨.workers, row.WorkerID, "AvailableSlots", .validJsonArray⟩]
  else []

/-- The errors one worker row contributes together with the updated set
of seen identifiers, mirroring one iteration of the forEach loop of
validateWorkers. -/
def workerRowErrors (seen : List Value) (idx : Nat) (row : Row) : List ValidationError × List Value :=
  let idPart := workerIdCheck seen idx row
  (idPart.1 ++ workerLoadErrors row ++ workerSlotErrors row, idPart.2)

/-- validateWorkers. -/
def validateWorkers (rows : List Row) : List ValidationError :=
  scanRows workerRowErrors [] 0 rows

/-- The identity block of one task row. -/
def taskIdCheck (seen : List Value) (idx : Nat) (row : Row) : List ValidationError × List Value :=
  idCheck .tasks "TaskID" .taskIdRequired .duplicateTaskId row.TaskID seen idx

/-- The Duration range block of one task row. -/
def taskDurationErrors (row : Row) : List ValidationError :=
  let duration := toNumber row.Duration
  if duration.isNaN || duration.le (.fin 0) then
    [⟨.tasks, row.TaskID, "Duration", .durationPositive⟩]
  else []

/-- The PreferredPhases block of one task row: a truthy cell must parse
to an array. -/
def taskPhasesErrors (row : Row) : List ValidationError :=
  if row.PreferredPhases.truthy then
    match jsonParseVal row.PreferredPhases with
    | some (.arr _) => []
    | _ => [⟨.tasks, row.TaskID, "PreferredPhases", .mustBeJsonArray⟩]
  else []

/-- The errors one task row contributes together with the updated set of
seen identifiers, mirroring one iteration of the forEach loop of
validateTasks. -/
def taskRowErrors (seen : List Value) (idx : Nat) (row : Row) : List ValidationError × List Value :=
  let idPart := taskIdCheck seen idx row
  (idPart.1 ++ taskDurationErrors row ++ taskPhasesErrors row, idPart.2)

/-- validateTasks. -/
def validateTasks (rows : List Row) : List ValidationError :=
  scanRows taskRowErrors [] 0 rows

/-- A JavaScript object with number values, ordered by key insertion. -/
abbrev NumRecord := List (String × JSNum)

/-- Property read on a number-valued object. -/
def recGet (m : NumRecord) (k : String) : Option JSNum :=
  match m with
  | [] => none
  | (k2, v) :: rest => if k2 = k then some v else recGet rest k

/-- Property write on a number-valued object: an existing key keeps its
position, a new key is appended. -/
def recSet (m : NumRecord) (k : String) (v : JSNum) : NumRecord :=
  match m with
  | [] => [(k, v)]
  | (k2, v2) :: rest => if k2 = k then (k2, v) :: rest else (k2, v2) :: recSet rest k v

/-- The idiom x || 0 applied to a property read: an absent, NaN or zero
entry yields 0. -/
def orZero (o : Option JSNum) : JSNum :=
  match o with
  | none => .fin 0
  | some v => if v.truthy then v else .fin 0

/-- The accumulation loop shared by the demand and supply maps: for each
element of the parsed array, the value d is added, through the || 0
guard, to the entry of the element's property key. -/
def phaseFold (d : JSNum) (m : NumRecord) (elems : List JSON) : NumRecord :=
  elems.foldl (fun acc ph => recSet acc (phaseKey ph) ((orZero (recGet acc (phaseKey ph))).add d)) m

/-- One task's contribution to the phase-demand map: its Duration is
added, through the || 0 guard, to the entry of every phase listed in its
parsed PreferredPhases array; a falsy or unparseable field, or a parse
that is not an array, contributes nothing. -/
def addTaskDemand (m : NumRecord) (task : Row) : NumRecord :=
  if !task.PreferredPhases.truthy then m
  else
    match jsonParseVal task.PreferredPhases with
    | some (.arr phases) => phaseFold (toNumber task.Duration) m phases
    | _ => m

/-- One worker's contribution to the phase-supply map: one unit per phase
listed in its parsed AvailableSlots array; an unparseable field (note
there is no truthiness guard here in the source: an absent field simply
fails to parse) contributes nothing. -/
def addWorkerSupply (m : NumRecord) (worker : Row) : NumRecord :=
  match jsonParseVal worker.AvailableSlots with
  | some (.arr slots) => phaseFold (.fin 1) m slots
  | _ => m

/-- Does a string denote an array index (the canonical decimal form of an
integer below 2^32 - 1)?  Such object keys are enumerated first, in
ascending numeric order. -/
def arrayIndexKey (s : String) : Option Nat :=
  let cs := s.data
  if cs.isEmpty then none
  else if !cs.all Char.isDigit then none
  else if cs.length > 1 ∧ cs.head? = some '0' then none
  else
    let n := digitsVal cs
    if n < 4294967295 then some n else none

/-- Object.keys enumeration order: array-index keys in ascending numeric
order first, then the remaining keys in insertion order. -/
def objKeys (m : NumRecord) : List String :=
  let ks := m.map Prod.fst
  let idxKeys := ks.filter (fun k => (arrayIndexKey k).isSome)
  let rest := ks.filter (fun k => (arrayIndexKey k).isNone)
  (idxKeys.insertionSort (fun a b => (arrayIndexKey a).getD 0 ≤ (arrayIndexKey b).getD 0)) ++ rest

/-- Concatenation of the lists produced for each element, in order. -/
def listFlatMap (f : α → List β) : List α → List β
  | [] => []
  | x :: xs => f x ++ listFlatMap f xs

/-- The body of the saturation loop for one enumerated phase key: read
its demand (the key comes from the demand map, so the none branch is
unreachable), default its supply through || 0, and emit the aggregate
error when demand strictly exceeds supply. -/
def satErr (phaseDemand phaseSupply : NumRecord) (phase : String) : List ValidationError :=
  match recGet phaseDemand phase with
  | none => []
  | some demand =>
    let supply := orZero (recGet phaseSupply phase)
    if demand.gt supply then
      [⟨.tasks, .num (.fin (-1)), "PreferredPhases", .phaseOverbooked phase demand supply⟩]
    else []

/-- validatePhaseSaturation: accumulate duration-weighted demand and
worker-count supply per phase, then emit one aggregate error for every
demanded phase whose demand strictly exceeds its supply. -/
def validatePhaseSaturation (tasks workers : List Row) : List ValidationError :=
  let phaseDemand := tasks.foldl addTaskDemand []
  let phaseSupply := workers.foldl addWorkerSupply []
  listFlatMap (satErr phaseDemand phaseSupply) (objKeys phaseDemand)

/-- Splits a character list at every comma, keeping empty pieces, as the
JavaScript split with a comma separator does. -/
def splitOnCommaAux : List Char → List Char → List String
  | [], acc => [String.mk acc.reverse]
  | c :: cs, acc =>
    if c = ',' then String.mk acc.reverse :: splitOnCommaAux cs []
    else splitOnCommaAux cs (c :: acc)

/-- JavaScript split on a comma; the empty string yields one empty
piece. -/
def jsSplitOnComma (s : String) : List String := splitOnCommaAux s.data []

/-- JavaScript toLowerCase (on the ASCII letters every statement here
touches). -/
def jsToLower (s : String) : String := String.mk (s.data.map Char.toLower)

/-- The split-trim-lowercase tokenisation a Skills or RequiredSkills cell
undergoes: absent short-circuits to the empty list through the optional
chain and the || [] fallback, a string is split on commas, and a number
raises a TypeError because numbers have no split method. -/
def splitSkills : Value → Except Unit (List String)
  | .absent => .ok []
  | .str s => .ok ((jsSplitOnComma s).map (fun t => jsToLower (jsTrim t)))
  | .num _ => .error ()

/-- Adds the elements not yet present, in order, mirroring Set.add. -/
def setAdd (s : List String) (x : String) : List String :=
  if x ∈ s then s else s ++ [x]

/-- Folds all workers' skill tokens into one set; the first worker whose
Skills cell is a number aborts the whole validator with a TypeError. -/
def addWorkerSkills (acc : List String) : List Row → Except Unit (List String)
  | [] => .ok acc
  | w :: ws =>
    match splitSkills w.Skills with
    | .error e => .error e
    | .ok sk => addWorkerSkills (sk.foldl setAdd acc) ws

/-- Emits, task by task, one error per required-skill token missing from
the worker-skill set, keyed by the task's TaskID. -/
def taskCoverageErrors (skills : List String) : List Row → Except Unit (List ValidationError)
  | [] => .ok []
  | t :: ts =>
    match splitSkills t.RequiredSkills with
    | .error e => .error e
    | .ok req =>
      match taskCoverageErrors skills ts with
      | .error e => .error e
      | .ok rest =>
        .ok ((req.filterMap (fun sk =>
          if sk ∈ skills then none
          else some ⟨.tasks, t.TaskID, "RequiredSkills", .missingRequiredSkill sk⟩)) ++ rest)

/-- validateSkillCoverage; the Except result records the TypeError the
source lets escape when a Skills or RequiredSkills cell is a number. -/
def validateSkillCoverage (tasks workers : List Row) : Except Unit (List ValidationError) :=
  match addWorkerSkills [] workers with
  | .error e => .error e
  | .ok allWorkerSkills => taskCoverageErrors allWorkerSkills tasks

/-- Decidable equality for Except results, used to evaluate the skill
coverage validator on concrete inputs. -/
instance exceptDecEq [DecidableEq e] [DecidableEq a] : DecidableEq (Except e a) := fun x y =>
  match x, y with
  | .ok u, .ok v =>
    if h : u = v then .isTrue (by rw [h]) else .isFalse (by intro hc; cases hc; exact h rfl)
  | .error u, .error v =>
    if h : u = v then .isTrue (by rw [h]) else .isFalse (by intro hc; cases hc; exact h rfl)
  | .ok _, .error _ => .isFalse (by intro hc; cases hc)
  | .error _, .ok _ => .isFalse (by intro hc; cases hc)

example :
    validatePhaseSaturation
      [{ Duration := .str "5", PreferredPhases := .str "[1]" }]
      [{ AvailableSlots := .str "[1]" }] =
      [⟨.tasks, .num (.fin (-1)), "PreferredPhases", .phaseOverbooked "1" (.fin 5) (.fin 1)⟩] := by
  decide

example :
    validatePhaseSaturation
      [{ Duration := .str "5", PreferredPhases := .str "[1]" }]
      (List.replicate 5 { AvailableSlots := .str "[1]" }) = [] := by
  decide

example :
    validateSkillCoverage
      [{ TaskID := .str "T1", RequiredSkills := .str "python, ml" }]
      [{ Skills := .str "python" }] =
      .ok [⟨.tasks, .str "T1", "RequiredSkills", .missingRequiredSkill "ml"⟩] := by
  decide

example :
    validateSkillCoverage
      [{ TaskID := .str "T1", RequiredSkills := .str "python, ml" }]
      [{ Skills := .str "python" }, { Skills := .str "ml" }] = .ok [] := by
  decide

example :
    validateSkillCoverage [] [{ Skills := .num (.fin 5) }] = .error () := by
  decide

example :
    validateWorkers [{ WorkerID := .str "W1", MaxLoadPerPhase := .str "3", AvailableSlots := .str "[1,2]" }] =
      [⟨.workers, .str "W1", "MaxLoadPerPhase", .workerOverloaded (.fin 3) 2⟩] := by
  decide

example :
    validateWorkers [{ WorkerID := .str "W1", MaxLoadPerPhase := .str "2", AvailableSlots := .str "[1,2]" }] = [] := by
  decide

example :
    validateWorkers [{ WorkerID := .str "W1", MaxLoadPerPhase := .str "Infinity" }] = [] := by
  decide

example :
    validateClients
      [{ ClientID := .str "A", PriorityLevel := .str "3" },
       { ClientID := .str "B", PriorityLevel := .str "3" },
       { ClientID := .str "", PriorityLevel := .str "0" }] [] =
      [⟨.clients, .str "", "ClientID", .clientIdRequired⟩,
       ⟨.clients, .str "", "PriorityLevel", .priorityBetween1And5⟩] := by
  decide

example :
    validatePhaseSaturation
      [{ Duration := .str "x", PreferredPhases := .str "[1]" },
       { Duration := .str "5", PreferredPhases := .str "[1]" }] [] =
      [⟨.tasks, .num (.fin (-1)), "PreferredPhases", .phaseOverbooked "1" (.fin 5) (.fin 0)⟩] := by
  decide

example :
    validatePhaseSaturation
      [{ Duration := .str "5", PreferredPhases := .str "[1]" },
       { Duration := .str "x", PreferredPhases := .str "[1]" }] [] = [] := by
  decide

/-! Basic lemmas about the embedded arithmetic and containers. -/

theorem ratAdd_eq (a b : ℚ) : ratAdd a b = a + b := by
  rw [ratAdd, Rat.divInt_eq_div]
  have ha : ((a.den : ℚ)) ≠ 0 := by
    exact_mod_cast a.den_nz
  have hb : ((b.den : ℚ)) ≠ 0 := by
    exact_mod_cast b.den_nz
  conv_rhs => rw [← Rat.num_div_den a, ← Rat.num_div_den b]
  rw [div_add_div _ _ ha hb]
  push_cast
  ring_nf

theorem JSNum.add_fin (a b : ℚ) : (JSNum.fin a).add (.fin b) = .fin (a + b) := by
  show JSNum.fin (ratAdd a b) = .fin (a + b)
  rw [ratAdd_eq]

theorem JSNum.add_nan_right (a : JSNum) : a.add .nan = .nan := by
  cases a <;> rfl

theorem orZero_fin (c : ℚ) : orZero (some (.fin c)) = .fin c := by
  show (if (JSNum.fin c).truthy then JSNum.fin c else .fin 0) = .fin c
  by_cases h : c = 0
  · subst h
    rfl
  · simp [JSNum.truthy, h]

theorem recGet_recSet_self (m : NumRecord) (k : String) (v : JSNum) :
    recGet (recSet m k v) k = some v := by
  induction m with
  | nil => simp [recSet, recGet]
  | cons kv rest ih =>
    by_cases h : kv.1 = k
    · simp [recSet, recGet, h]
    · simp [recSet, recGet, h, ih]

theorem recGet_recSet_ne (m : NumRecord) (k p : String) (v : JSNum) (h : k ≠ p) :
    recGet (recSet m k v) p = recGet m p := by
  induction m with
  | nil => simp [recSet, recGet, h]
  | cons kv rest ih =>
    by_cases h2 : kv.1 = k
    · simp [recSet, recGet, h2, h]
    · simp [recSet, recGet, h2, ih]

theorem listFlatMap_mem (f : α → List β) (l : List α) (b : β) :
    b ∈ listFlatMap f l ↔ ∃ a ∈ l, b ∈ f a := by
  induction l with
  | nil => simp [listFlatMap]
  | cons x xs ih => simp [listFlatMap, ih]

/-! C9. -/

/-- C9: the result of validateClients depends only on its first argument;
the optional tasks parameter is never read, so in particular the clients'
RequestedTaskIDs field is never checked against the tasks table. -/
theorem validateClients_ignores_tasks (rows t1 t2 : List Row) :
    validateClients rows t1 = validateClients rows t2 := rfl

/-! C6. -/

theorem clientIdCheck_no_priority_field (seen : List Value) (idx : Nat) (r : Row) :
    (clientIdCheck seen idx r).1.countP (fun e => e.field == "PriorityLevel") = 0 := by
  unfold clientIdCheck idCheck
  split
  · rfl
  · split
    · rfl
    · rfl

theorem clientAttrErrors_no_priority_field (r : Row) :
    (clientAttrErrors r).countP (fun e => e.field == "PriorityLevel") = 0 := by
  unfold clientAttrErrors
  split
  · split
    · rfl
    · rfl
  · rfl

theorem clientRowErrors_priority_count (seen : List Value) (idx : Nat) (r : Row) :
    (clientRowErrors seen idx r).1.countP (fun e => e.field == "PriorityLevel") =
      (clientPriorityErrors r).length := by
  show ((clientIdCheck seen idx r).1 ++ clientPriorityErrors r ++ clientAttrErrors r).countP _ = _
  rw [List.countP_append, List.countP_append, clientIdCheck_no_priority_field,
    clientAttrErrors_no_priority_field]
  simp only [clientPriorityErrors]
  split
  · rfl
  · rfl

/-- C6: a client row whose PriorityLevel parses to exactly 1 or exactly 5
receives no Domain error on PriorityLevel, and one whose PriorityLevel
parses to 0 or to 6 receives exactly one, at any scan position and also
through validateClients itself. -/
theorem priorityLevel_boundaries (seen : List Value) (idx : Nat) (r : Row) :
    ((toNumber r.PriorityLevel = .fin 1 ∨ toNumber r.PriorityLevel = .fin 5) →
      (clientRowErrors seen idx r).1.countP (fun e => e.field == "PriorityLevel") = 0 ∧
      (validateClients [r] []).countP (fun e => e.field == "PriorityLevel") = 0) ∧
    ((toNumber r.PriorityLevel = .fin 0 ∨ toNumber r.PriorityLevel = .fin 6) →
      (clientRowErrors seen idx r).1.countP (fun e => e.field == "PriorityLevel") = 1 ∧
      (validateClients [r] []).countP (fun e => e.field == "PriorityLevel") = 1) := by
  have hval : validateClients [r] [] = (clientRowErrors [] 0 r).1 ++ [] := rfl
  constructor
  · intro h
    have hlen : (clientPriorityErrors r).length = 0 := by
      unfold clientPriorityErrors
      rcases h with h | h <;> rw [h] <;> rfl
    refine ⟨?_, ?_⟩
    · rw [clientRowErrors_priority_count, hlen]
    · rw [hval, List.append_nil, clientRowErrors_priority_count, hlen]
  · intro h
    have hlen : (clientPriorityErrors r).length = 1 := by
      unfold clientPriorityErrors
      rcases h with h | h <;> rw [h] <;> rfl
    refine ⟨?_, ?_⟩
    · rw [clientRowErrors_priority_count, hlen]
    · rw [hval, List.append_nil, clientRowErrors_priority_count, hlen]

/-- Witness for C6 at PriorityLevel values 1, 5, 0 and 6. -/
theorem priorityLevel_boundaries_witness :
    (clientRowErrors [] 0 { ClientID := .str "A", PriorityLevel := .str "1" }).1.countP
        (fun e => e.field == "PriorityLevel") = 0 ∧
    (clientRowErrors [] 0 { ClientID := .str "A", PriorityLevel := .str "5" }).1.countP
        (fun e => e.field == "PriorityLevel") = 0 ∧
    (clientRowErrors [] 0 { ClientID := .str "A", PriorityLevel := .str "0" }).1.countP
        (fun e => e.field == "PriorityLevel") = 1 ∧
    (validateClients [{ ClientID := .str "A", PriorityLevel := .str "6" }] []).countP
        (fun e => e.field == "PriorityLevel") = 1 :=
  ⟨((priorityLevel_boundaries [] 0 _).1 (Or.inl (by decide))).1,
   ((priorityLevel_boundaries [] 0 _).1 (Or.inr (by decide))).1,
   ((priorityLevel_boundaries [] 0 _).2 (Or.inl (by decide))).1,
   ((priorityLevel_boundaries [] 0 _).2 (Or.inr (by decide))).2⟩

/-! C7. -/

theorem idCheck_countP_zero (tbl : Table) (fn : String) (rm dm : Msg) (rowId : Value)
    (seen : List Value) (idx : Nat) (P : ValidationError → Bool)
    (h1 : ∀ rv, P ⟨tbl, rv, fn, rm⟩ = false) (h2 : ∀ rv, P ⟨tbl, rv, fn, dm⟩ = false) :
    (idCheck tbl fn rm dm rowId seen idx).1.countP P = 0 := by
  unfold idCheck
  split
  · simp [h1]
  · split
    · simp [h2]
    · rfl

theorem workerSlotErrors_countP_zero (r : Row) (P : ValidationError → Bool)
    (hov : ∀ m s, P ⟨.workers, r.WorkerID, "MaxLoadPerPhase", .workerOverloaded m s⟩ = false)
    (hva : P ⟨.workers, r.WorkerID, "AvailableSlots", .validJsonArray⟩ = false) :
    (workerSlotErrors r).countP P = 0 := by
  simp only [workerSlotErrors]
  split
  · split
    · split
      · simp [hov]
      · rfl
    · simp [hva]
  · rfl

theorem clientAttrErrors_countP_zero (r : Row) (P : ValidationError → Bool)
    (h : P ⟨.clients, r.ClientID, "AttributesJSON", .invalidJsonFormat⟩ = false) :
    (clientAttrErrors r).countP P = 0 := by
  simp only [clientAttrErrors]
  split
  · split
    · rfl
    · simp [h]
  · rfl

theorem taskPhasesErrors_countP_zero (r : Row) (P : ValidationError → Bool)
    (h : P ⟨.tasks, r.TaskID, "PreferredPhases", .mustBeJsonArray⟩ = false) :
    (taskPhasesErrors r).countP P = 0 := by
  simp only [taskPhasesErrors]
  split
  · split
    · rfl
    · simp [h]
  · rfl

/-- C7 counterexample: a worker whose MaxLoadPerPhase parses to Infinity,
a non-finite number, receives no error at all, contradicting the claim
that a value that does not parse to a finite number is flagged. -/
theorem maxLoad_infinity_not_flagged :
    validateWorkers [{ WorkerID := .str "W1", MaxLoadPerPhase := .str "Infinity" }] = [] ∧
    toNumber (.str "Infinity") = .inf := by
  decide

/-- C7 amended: each per-entity validator emits its Domain error exactly
when the designated numeric field parses to NaN or lies outside the
declared bound (clients through the 1..5 window, workers and tasks
through the strictly-positive test); Infinity is not NaN and passes the
worker and task bounds, so it is not flagged there. -/
theorem domain_error_iff_nan_or_out_of_bound (seen : List Value) (idx : Nat) (r : Row) :
    ((clientRowErrors seen idx r).1.countP (fun e => e.message == .priorityBetween1And5) =
      if (toNumber r.PriorityLevel).isNaN || (toNumber r.PriorityLevel).lt (.fin 1) ||
          (toNumber r.PriorityLevel).gt (.fin 5) then 1 else 0) ∧
    ((workerRowErrors seen idx r).1.countP (fun e => e.message == .maxLoadPositive) =
      if (toNumber r.MaxLoadPerPhase).isNaN || (toNumber r.MaxLoadPerPhase).le (.fin 0)
        then 1 else 0) ∧
    ((taskRowErrors seen idx r).1.countP (fun e => e.message == .durationPositive) =
      if (toNumber r.Duration).isNaN || (toNumber r.Duration).le (.fin 0) then 1 else 0) ∧
    (toNumber r.MaxLoadPerPhase = .inf →
      (workerRowErrors seen idx r).1.countP (fun e => e.message == .maxLoadPositive) = 0) := by
  have hc : (clientRowErrors seen idx r).1.countP (fun e => e.message == .priorityBetween1And5) =
      (clientPriorityErrors r).countP (fun e => e.message == .priorityBetween1And5) := by
    show ((clientIdCheck seen idx r).1 ++ clientPriorityErrors r ++ clientAttrErrors r).countP _ = _
    simp only [clientIdCheck]
    rw [List.countP_append, List.countP_append,
      idCheck_countP_zero .clients "ClientID" .clientIdRequired .duplicateClientId r.ClientID
        seen idx _ (fun _ => rfl) (fun _ => rfl),
      clientAttrErrors_countP_zero r _ rfl]
    omega
  have hw : (workerRowErrors seen idx r).1.countP (fun e => e.message == .maxLoadPositive) =
      (workerLoadErrors r).countP (fun e => e.message == .maxLoadPositive) := by
    show ((workerIdCheck seen idx r).1 ++ workerLoadErrors r ++ workerSlotErrors r).countP _ = _
    simp only [workerIdCheck]
    rw [List.countP_append, List.countP_append,
      idCheck_countP_zero .workers "WorkerID" .workerIdRequired .duplicateWorkerId r.WorkerID
        seen idx _ (fun _ => rfl) (fun _ => rfl),
      workerSlotErrors_countP_zero r _ (fun _ _ => rfl) rfl]
    omega
  have ht : (taskRowErrors seen idx r).1.countP (fun e => e.message == .durationPositive) =
      (taskDurationErrors r).countP (fun e => e.message == .durationPositive) := by
    show ((taskIdCheck seen idx r).1 ++ taskDurationErrors r ++ taskPhasesErrors r).countP _ = _
    simp only [taskIdCheck]
    rw [List.countP_append, List.countP_append,
      idCheck_countP_zero .tasks "TaskID" .taskIdRequired .duplicateTaskId r.TaskID
        seen idx _ (fun _ => rfl) (fun _ => rfl),
      taskPhasesErrors_countP_zero r _ rfl]
    omega
  refine ⟨?_, ?_, ?_, ?_⟩
  · rw [hc]
    simp only [clientPriorityErrors]
    split
    · rfl
    · rfl
  · rw [hw]
    simp only [workerLoadErrors]
    split
    · rfl
    · rfl
  · rw [ht]
    simp only [taskDurationErrors]
    split
    · rfl
    · rfl
  · intro hinf
    rw [hw]
    simp only [workerLoadErrors, hinf]
    rfl

/-- Witness for the amended C7 at a worker row whose MaxLoadPerPhase is
the string Infinity. -/
theorem domain_error_iff_nan_or_out_of_bound_witness :
    (workerRowErrors [] 0 { WorkerID := .str "W1", MaxLoadPerPhase := .str "Infinity" }).1.countP
      (fun e => e.message == .maxLoadPositive) = 0 :=
  (domain_error_iff_nan_or_out_of_bound [] 0 _).2.2.2 (by decide)

/-! C8. -/

/-- Selects the overload error messages. -/
def isOverloadMsg : Msg → Bool
  | .workerOverloaded _ _ => true
  | _ => false

theorem idCheck_filter_nil (tbl : Table) (fn : String) (rm dm : Msg) (rowId : Value)
    (seen : List Value) (idx : Nat) (P : ValidationError → Bool)
    (h1 : ∀ rv, P ⟨tbl, rv, fn, rm⟩ = false) (h2 : ∀ rv, P ⟨tbl, rv, fn, dm⟩ = false) :
    (idCheck tbl fn rm dm rowId seen idx).1.filter P = [] := by
  unfold idCheck
  split
  · simp [h1]
  · split
    · simp [h2]
    · rfl

theorem workerLoadErrors_filter_overload (r : Row) :
    (workerLoadErrors r).filter (fun e => isOverloadMsg e.message) = [] := by
  simp only [workerLoadErrors]
  split
  · rfl
  · rfl

theorem workerRowErrors_overload_filter (seen : List Value) (idx : Nat) (r : Row) :
    (workerRowErrors seen idx r).1.filter (fun e => isOverloadMsg e.message) =
      (workerSlotErrors r).filter (fun e => isOverloadMsg e.message) := by
  show ((workerIdCheck seen idx r).1 ++ workerLoadErrors r ++ workerSlotErrors r).filter _ = _
  simp only [workerIdCheck]
  rw [List.filter_append, List.filter_append,
    idCheck_filter_nil .workers "WorkerID" .workerIdRequired .duplicateWorkerId r.WorkerID
      seen idx _ (fun _ => rfl) (fun _ => rfl),
    workerLoadErrors_filter_overload]
  rfl

/-- C8: when a worker's AvailableSlots is truthy and parses to an array
and its MaxLoadPerPhase parsed to a non-NaN number, exactly one Overload
error is emitted, on the MaxLoadPerPhase field and carrying both the load
and the slot count, precisely when the load exceeds the array length; the
check is omitted when either prerequisite parse failed; and the two
end-to-end scenarios with loads 3 and 2 against two slots behave as
specified. -/
theorem overload_check (seen : List Value) (idx : Nat) (r : Row) :
    (∀ l, r.AvailableSlots.truthy = true →
      jsonParseVal r.AvailableSlots = some (.arr l) →
      (toNumber r.MaxLoadPerPhase).isNaN = false →
      (workerRowErrors seen idx r).1.filter (fun e => isOverloadMsg e.message) =
        if (toNumber r.MaxLoadPerPhase).gt (.fin (l.length : ℚ)) then
          [⟨.workers, r.WorkerID, "MaxLoadPerPhase",
             .workerOverloaded (toNumber r.MaxLoadPerPhase) l.length⟩]
        else []) ∧
    ((toNumber r.MaxLoadPerPhase).isNaN = true →
      (workerRowErrors seen idx r).1.filter (fun e => isOverloadMsg e.message) = []) ∧
    ((∀ l, jsonParseVal r.AvailableSlots ≠ some (.arr l)) →
      (workerRowErrors seen idx r).1.filter (fun e => isOverloadMsg e.message) = []) ∧
    validateWorkers
        [{ WorkerID := .str "W1", MaxLoadPerPhase := .str "3", AvailableSlots := .str "[1,2]" }] =
      [⟨.workers, .str "W1", "MaxLoadPerPhase", .workerOverloaded (.fin 3) 2⟩] ∧
    validateWorkers
        [{ WorkerID := .str "W1", MaxLoadPerPhase := .str "2", AvailableSlots := .str "[1,2]" }] =
      [] := by
  refine ⟨?_, ?_, ?_, by decide, by decide⟩
  · intro l htr harr hnan
    rw [workerRowErrors_overload_filter]
    simp only [workerSlotErrors, htr, harr, hnan, if_true, Bool.not_false, Bool.true_and]
    split
    · rfl
    · rfl
  · intro hnan
    rw [workerRowErrors_overload_filter]
    simp only [workerSlotErrors, hnan, Bool.not_true, Bool.false_and, if_false]
    split
    · split
      · rfl
      · rfl
    · rfl
  · intro hne
    rw [workerRowErrors_overload_filter]
    simp only [workerSlotErrors]
    split
    · cases hj : jsonParseVal r.AvailableSlots with
      | none => rfl
      | some j =>
        cases j with
        | arr elems => exact absurd hj (hne elems)
        | null => rfl
        | bool b => rfl
        | num q => rfl
        | str s => rfl
        | obj fs => rfl
    · rfl

/-- Witness for C8 at a worker with load 3 against two slots. -/
theorem overload_check_witness :
    (workerRowErrors [] 0
        { WorkerID := .str "W1", MaxLoadPerPhase := .str "3", AvailableSlots := .str "[1,2]" }).1.filter
      (fun e => isOverloadMsg e.message) =
      [⟨.workers, .str "W1", "MaxLoadPerPhase", .workerOverloaded (.fin 3) 2⟩] := by
  have h := (overload_check [] 0
    { WorkerID := .str "W1", MaxLoadPerPhase := .str "3", AvailableSlots := .str "[1,2]" }).1
    [.num 1, .num 2] rfl rfl rfl
  exact h.trans (by decide)

/-! C2. -/

/-- The rows of the C2 scenario: two well-formed clients followed, at
position 2, by a row with an empty ClientID and an out-of-range
PriorityLevel. -/
def c2Rows : List Row :=
  [{ ClientID := .str "A", PriorityLevel := .str "3" },
   { ClientID := .str "B", PriorityLevel := .str "3" },
   { ClientID := .str "", PriorityLevel := .str "0" }]

/-- C2 counterexample: the empty-string ClientID at position 2 is truthy
for the nullish-coalescing fallback test, so both the Required and the
Domain error on that row carry the empty string, not the index 2. -/
theorem empty_clientId_not_keyed_by_index :
    validateClients c2Rows [] =
      [⟨.clients, .str "", "ClientID", .clientIdRequired⟩,
       ⟨.clients, .str "", "PriorityLevel", .priorityBetween1And5⟩] ∧
    ¬ (∃ e ∈ validateClients c2Rows [], e.row = .num (.fin 2)) := by
  decide

/-- C2 amended: the positional fallback applies only to an absent
ClientID, and only to the Required error: with ClientID absent the
Required error is keyed by idx while every other error on the row is
keyed by the absent value, and with an empty or white-space ClientID
every error on the row, the Required one included, is keyed by that
string. -/
theorem fallback_identity_keys (seen : List Value) (idx : Nat) (r : Row) :
    (r.ClientID = .absent →
      ∀ e ∈ (clientRowErrors seen idx r).1,
        (e.message = .clientIdRequired → e.row = .num (.fin idx)) ∧
        (e.message ≠ .clientIdRequired → e.row = .absent)) ∧
    (∀ s, r.ClientID = .str s → jsTrim s = "" →
      ∀ e ∈ (clientRowErrors seen idx r).1, e.row = .str s) := by
  constructor
  · intro habs e he
    have he2 : e ∈ (clientIdCheck seen idx r).1 ++ clientPriorityErrors r ++ clientAttrErrors r := he
    rw [List.mem_append, List.mem_append] at he2
    rcases he2 with (h | h) | h
    · simp only [clientIdCheck, idCheck, habs] at h
      norm_num [idMissing, Value.truthy, coalesce] at h
      rw [h]
      exact ⟨fun _ => rfl, fun hne => absurd rfl hne⟩
    · simp only [clientPriorityErrors] at h
      split at h
      · rw [List.mem_singleton] at h
        rw [h, habs]
        exact ⟨fun hm => absurd hm (by decide), fun _ => rfl⟩
      · exact absurd h (List.not_mem_nil e)
    · simp only [clientAttrErrors] at h
      split at h
      · split at h
        · exact absurd h (List.not_mem_nil e)
        · rw [List.mem_singleton] at h
          rw [h, habs]
          exact ⟨fun hm => absurd hm (by decide), fun _ => rfl⟩
      · exact absurd h (List.not_mem_nil e)
  · intro s hs htrim e he
    have he2 : e ∈ (clientIdCheck seen idx r).1 ++ clientPriorityErrors r ++ clientAttrErrors r := he
    rw [List.mem_append, List.mem_append] at he2
    have hmiss : idMissing r.ClientID = true := by
      rw [hs]
      simp only [idMissing, Value.toStr, htrim]
      cases hemp : s.isEmpty
      · simp
      · simp
    rcases he2 with (h | h) | h
    · simp only [clientIdCheck, idCheck, hmiss, if_true] at h
      rw [List.mem_singleton] at h
      rw [h, hs]
      rfl
    · simp only [clientPriorityErrors] at h
      split at h
      · rw [List.mem_singleton] at h
        rw [h, hs]
      · exact absurd h (List.not_mem_nil e)
    · simp only [clientAttrErrors] at h
      split at h
      · split at h
        · exact absurd h (List.not_mem_nil e)
        · rw [List.mem_singleton] at h
          rw [h, hs]
      · exact absurd h (List.not_mem_nil e)

/-- Witness for the amended C2 at the empty-string and absent cases. -/
theorem fallback_identity_keys_witness :
    ((clientRowErrors [] 2 { ClientID := .str "", PriorityLevel := .str "0" }).1.all
      (fun e => e.row == .str "")) = true ∧
    ((clientRowErrors [] 2 { PriorityLevel := .str "0" }).1.all
      (fun e => e.row == .num (.fin 2) || e.row == .absent)) = true := by
  constructor
  · have h := (fallback_identity_keys [] 2 { ClientID := .str "", PriorityLevel := .str "0" }).2
      "" rfl (by decide)
    rw [List.all_eq_true]
    intro e he
    rw [h e he]
    rfl
  · have h := (fallback_identity_keys [] 2 { PriorityLevel := .str "0" }).1 rfl
    rw [List.all_eq_true]
    intro e he
    by_cases hm : e.message = .clientIdRequired
    · rw [(h e he).1 hm]
      rfl
    · rw [(h e he).2 hm]
      rfl

/-! C1. -/

/-- C1 counterexample: a worker whose Skills cell is a number makes
validateSkillCoverage throw a TypeError (split is not a function),
escaping the validator. -/
theorem skill_coverage_throws_on_numeric_skills :
    validateSkillCoverage [] [{ Skills := .num (.fin 5) }] = .error () := by
  decide

theorem splitSkills_ok_of_shape (v : Value) (h : v = .absent ∨ ∃ s, v = .str s) :
    ∃ ts, splitSkills v = .ok ts := by
  rcases h with h | ⟨s, h⟩ <;> subst h
  · exact ⟨[], rfl⟩
  · exact ⟨_, rfl⟩

theorem addWorkerSkills_ok (ws : List Row) (acc : List String)
    (hw : ∀ w ∈ ws, w.Skills = .absent ∨ ∃ s, w.Skills = .str s) :
    ∃ res, addWorkerSkills acc ws = .ok res := by
  induction ws generalizing acc with
  | nil => exact ⟨acc, rfl⟩
  | cons w ws ih =>
    obtain ⟨ts, hts⟩ := splitSkills_ok_of_shape w.Skills (hw w (by simp))
    obtain ⟨res, hres⟩ := ih (ts.foldl setAdd acc) (fun x hx => hw x (by simp [hx]))
    refine ⟨res, ?_⟩
    simp only [addWorkerSkills, hts]
    exact hres

theorem taskCoverageErrors_ok (skills : List String) (ts : List Row)
    (ht : ∀ t ∈ ts, t.RequiredSkills = .absent ∨ ∃ s, t.RequiredSkills = .str s) :
    ∃ res, taskCoverageErrors skills ts = .ok res := by
  induction ts with
  | nil => exact ⟨[], rfl⟩
  | cons t ts ih =>
    obtain ⟨req, hreq⟩ := splitSkills_ok_of_shape t.RequiredSkills (ht t (by simp))
    obtain ⟨res, hres⟩ := ih (fun x hx => ht x (by simp [hx]))
    refine ⟨(req.filterMap (fun sk =>
      if sk ∈ skills then none
      else some ⟨.tasks, t.TaskID, "RequiredSkills", .missingRequiredSkill sk⟩)) ++ res, ?_⟩
    simp only [taskCoverageErrors, hreq, hres]

/-- C1 amended: the per-entity validators and the phase-saturation check
catch every exception their bodies can raise and so return an error list
on every input (they are total functions of the embedded input space),
but validateSkillCoverage throws a TypeError when some worker's Skills or
some task's RequiredSkills cell is a number; it returns an error list
whenever those cells are all strings or absent. -/
theorem skill_coverage_no_throw (tasks workers : List Row)
    (hw : ∀ w ∈ workers, w.Skills = .absent ∨ ∃ s, w.Skills = .str s)
    (ht : ∀ t ∈ tasks, t.RequiredSkills = .absent ∨ ∃ s, t.RequiredSkills = .str s) :
    ∃ es, validateSkillCoverage tasks workers = .ok es := by
  obtain ⟨res, hres⟩ := addWorkerSkills_ok workers [] hw
  obtain ⟨es, hes⟩ := taskCoverageErrors_ok res tasks ht
  refine ⟨es, ?_⟩
  simp only [validateSkillCoverage, hres]
  exact hes

/-- Witness for the amended C1 on a one-task, one-worker input. -/
theorem skill_coverage_no_throw_witness :
    ∃ es, validateSkillCoverage [{ TaskID := .str "T1", RequiredSkills := .str "python" }]
      [{ Skills := .str "python" }] = .ok es :=
  skill_coverage_no_throw _ _
    (fun w hwm => by
      rcases List.mem_singleton.mp hwm with rfl
      exact Or.inr ⟨"python", rfl⟩)
    (fun t htm => by
      rcases List.mem_singleton.mp htm with rfl
      exact Or.inr ⟨"python", rfl⟩)

/-! C4. -/

/-- The tokens of a Skills-like cell: the comma-split, trimmed,
lower-cased pieces of a string, and nothing for any other value. -/
def skillTokens (v : Value) : List String :=
  match v with
  | .str s => (jsSplitOnComma s).map (fun t => jsToLower (jsTrim t))
  | _ => []

/-- Does some worker of the list carry this skill token? -/
def skillCovered (workers : List Row) (sk : String) : Bool :=
  workers.any (fun w => decide (sk ∈ skillTokens w.Skills))

theorem splitSkills_tokens (v : Value) (h : v = .absent ∨ ∃ s, v = .str s) :
    splitSkills v = .ok (skillTokens v) := by
  rcases h with h | ⟨s, h⟩ <;> subst h <;> rfl

theorem mem_foldl_setAdd (l : List String) (acc : List String) (x : String) :
    x ∈ l.foldl setAdd acc ↔ x ∈ acc ∨ x ∈ l := by
  induction l generalizing acc with
  | nil => simp
  | cons a l ih =>
    show x ∈ l.foldl setAdd (setAdd acc a) ↔ _
    rw [ih]
    unfold setAdd
    split
    · constructor
      · rintro (h | h)
        · exact Or.inl h
        · exact Or.inr (List.mem_cons_of_mem a h)
      · rintro (h | h)
        · exact Or.inl h
        · rcases List.mem_cons.mp h with rfl | h
          · exact Or.inl (by assumption)
          · exact Or.inr h
    · simp only [List.mem_append, List.mem_singleton, List.mem_cons]
      tauto

theorem addWorkerSkills_mem (ws : List Row) (acc res : List String)
    (hw : ∀ w ∈ ws, w.Skills = .absent ∨ ∃ s, w.Skills = .str s)
    (h : addWorkerSkills acc ws = .ok res) (x : String) :
    x ∈ res ↔ x ∈ acc ∨ ∃ w ∈ ws, x ∈ skillTokens w.Skills := by
  induction ws generalizing acc with
  | nil =>
    simp only [addWorkerSkills] at h
    cases h
    simp
  | cons w ws ih =>
    have hts := splitSkills_tokens w.Skills (hw w (by simp))
    simp only [addWorkerSkills, hts] at h
    rw [ih (skillTokens w.Skills |>.foldl setAdd acc) (fun t htm => hw t (by simp [htm])) h,
      mem_foldl_setAdd]
    simp only [List.mem_cons]
    constructor
    · rintro ((h | h) | ⟨w2, hw2, hx⟩)
      · exact Or.inl h
      · exact Or.inr ⟨w, Or.inl rfl, h⟩
      · exact Or.inr ⟨w2, Or.inr hw2, hx⟩
    · rintro (h | ⟨w2, rfl | hw2, hx⟩)
      · exact Or.inl (Or.inl h)
      · exact Or.inl (Or.inr hx)
      · exact Or.inr ⟨w2, hw2, hx⟩

theorem skillCovered_iff (workers : List Row) (x : String) :
    skillCovered workers x = true ↔ ∃ w ∈ workers, x ∈ skillTokens w.Skills := by
  simp [skillCovered]

theorem filterMap_missing (workers : List Row) (S : List String)
    (hS : ∀ x, x ∈ S ↔ skillCovered workers x = true)
    (g : String → ValidationError) (req : List String) :
    req.filterMap (fun sk => if sk ∈ S then none else some (g sk)) =
      (req.filter (fun sk => !skillCovered workers sk)).map g := by
  induction req with
  | nil => rfl
  | cons sk req ih =>
    rw [List.filterMap_cons, List.filter_cons]
    by_cases h : sk ∈ S
    · have hc : skillCovered workers sk = true := (hS sk).mp h
      rw [if_pos h, hc]
      simpa using ih
    · have hc : skillCovered workers sk = false := by
        cases hcc : skillCovered workers sk
        · rfl
        · exact absurd ((hS sk).mpr hcc) h
      rw [if_neg h, hc]
      simpa using ih

theorem taskCoverageErrors_spec (workers : List Row) (S : List String)
    (hS : ∀ x, x ∈ S ↔ skillCovered workers x = true) (ts : List Row)
    (ht : ∀ t ∈ ts, t.RequiredSkills = .absent ∨ ∃ s, t.RequiredSkills = .str s) :
    taskCoverageErrors S ts = .ok (listFlatMap (fun t =>
      ((skillTokens t.RequiredSkills).filter (fun sk => !skillCovered workers sk)).map
        (fun sk => ⟨.tasks, t.TaskID, "RequiredSkills", .missingRequiredSkill sk⟩)) ts) := by
  induction ts with
  | nil => rfl
  | cons t ts ih =>
    have hreq := splitSkills_tokens t.RequiredSkills (ht t (by simp))
    have ihh := ih (fun x hx => ht x (by simp [hx]))
    simp only [taskCoverageErrors, hreq, ihh, listFlatMap]
    rw [filterMap_missing workers S hS]

/-- C4: under string-or-absent skill cells, validateSkillCoverage
returns, task by task and token by token, one error keyed by the task's
TaskID for every required-skill token carried by no worker, with no
deduplication across tasks; and the two end-to-end scenarios (missing ml,
then covered after adding an ml worker) behave as specified. -/
theorem skill_coverage_spec (tasks workers : List Row)
    (hw : ∀ w ∈ workers, w.Skills = .absent ∨ ∃ s, w.Skills = .str s)
    (ht : ∀ t ∈ tasks, t.RequiredSkills = .absent ∨ ∃ s, t.RequiredSkills = .str s) :
    validateSkillCoverage tasks workers =
      .ok (listFlatMap (fun t =>
        ((skillTokens t.RequiredSkills).filter (fun sk => !skillCovered workers sk)).map
          (fun sk => ⟨.tasks, t.TaskID, "RequiredSkills", .missingRequiredSkill sk⟩)) tasks) ∧
    validateSkillCoverage [{ TaskID := .str "T1", RequiredSkills := .str "python, ml" }]
        [{ Skills := .str "python" }] =
      .ok [⟨.tasks, .str "T1", "RequiredSkills", .missingRequiredSkill "ml"⟩] ∧
    validateSkillCoverage [{ TaskID := .str "T1", RequiredSkills := .str "python, ml" }]
        [{ Skills := .str "python" }, { Skills := .str "ml" }] = .ok [] := by
  refine ⟨?_, by decide, by decide⟩
  obtain ⟨res, hres⟩ := addWorkerSkills_ok workers [] hw
  have hS : ∀ x, x ∈ res ↔ skillCovered workers x = true := by
    intro x
    rw [addWorkerSkills_mem workers [] res hw hres x, skillCovered_iff]
    simp
  simp only [validateSkillCoverage, hres]
  exact taskCoverageErrors_spec workers res hS tasks ht

/-- Witness for C4 on the one-task, one-worker scenario. -/
theorem skill_coverage_spec_witness :
    validateSkillCoverage [{ TaskID := .str "T1", RequiredSkills := .str "python, ml" }]
      [{ Skills := .str "python" }] =
      .ok [⟨.tasks, .str "T1", "RequiredSkills", .missingRequiredSkill "ml"⟩] := by
  have h := (skill_coverage_spec [{ TaskID := .str "T1", RequiredSkills := .str "python, ml" }]
    [{ Skills := .str "python" }]
    (fun w hwm => by
      rcases List.mem_singleton.mp hwm with rfl
      exact Or.inr ⟨"python", rfl⟩)
    (fun t htm => by
      rcases List.mem_singleton.mp htm with rfl
      exact Or.inr ⟨"python, ml", rfl⟩)).1
  exact h.trans (by decide)

/-! C5. -/

/-- Is a value accepted as an identifier by the validators (truthy with
non-white-space string form)? -/
def validId (v : Value) : Bool := !(idMissing v)

/-- The identifiers the scan flags as duplicates, in scan order, given
the identifiers already seen. -/
def dupIds (seen : List Value) : List Value → List Value
  | [] => []
  | x :: xs =>
    if idMissing x then dupIds seen xs
    else if seen.contains x then x :: dupIds seen xs
    else dupIds (x :: seen) xs

theorem filter_of_countP_zero (l : List ValidationError) (P : ValidationError → Bool)
    (h : l.countP P = 0) : l.filter P = [] := by
  rw [List.filter_eq_nil_iff]
  exact fun a ha => by simpa using List.countP_eq_zero.mp h a ha

theorem clientPriorityErrors_countP_zero (r : Row) (P : ValidationError → Bool)
    (h : P ⟨.clients, r.ClientID, "PriorityLevel", .priorityBetween1And5⟩ = false) :
    (clientPriorityErrors r).countP P = 0 := by
  simp only [clientPriorityErrors]
  split
  · simp [h]
  · rfl

theorem workerLoadErrors_countP_zero (r : Row) (P : ValidationError → Bool)
    (h : P ⟨.workers, r.WorkerID, "MaxLoadPerPhase", .maxLoadPositive⟩ = false) :
    (workerLoadErrors r).countP P = 0 := by
  simp only [workerLoadErrors]
  split
  · simp [h]
  · rfl

theorem taskDurationErrors_countP_zero (r : Row) (P : ValidationError → Bool)
    (h : P ⟨.tasks, r.TaskID, "Duration", .durationPositive⟩ = false) :
    (taskDurationErrors r).countP P = 0 := by
  simp only [taskDurationErrors]
  split
  · simp [h]
  · rfl

theorem scanRows_dup_filter (tbl : Table) (fn : String) (rm dm : Msg) (getId : Row → Value)
    (extra : Row → List ValidationError)
    (hrm : (rm == dm) = false)
    (hextra : ∀ r, (extra r).filter (fun e => e.message == dm) = [])
    (f : List Value → Nat → Row → List ValidationError × List Value)
    (hf : ∀ seen idx r, f seen idx r =
      ((idCheck tbl fn rm dm (getId r) seen idx).1 ++ extra r,
       (idCheck tbl fn rm dm (getId r) seen idx).2)) :
    ∀ (rows : List Row) (seen : List Value) (idx : Nat),
      (scanRows f seen idx rows).filter (fun e => e.message == dm) =
        (dupIds seen (rows.map getId)).map
          (fun v => (⟨tbl, v, fn, dm⟩ : ValidationError)) := by
  intro rows
  induction rows with
  | nil => intro seen idx; rfl
  | cons r rs ih =>
    intro seen idx
    show ((f seen idx r).1 ++ scanRows f (f seen idx r).2 (idx + 1) rs).filter _ = _
    rw [hf, List.filter_append, List.filter_append, hextra, List.append_nil, List.map_cons]
    simp only [dupIds, idCheck]
    by_cases hmiss : idMissing (getId r) = true
    · rw [if_pos hmiss, if_pos hmiss]
      have hfil : ([(⟨tbl, coalesce (getId r) (.num (.fin idx)), fn, rm⟩ : ValidationError)].filter
          (fun e => e.message == dm)) = [] := by
        simp only [List.filter_cons]
        rw [show ((⟨tbl, coalesce (getId r) (.num (.fin idx)), fn, rm⟩ :
          ValidationError).message == dm) = false from hrm]
        rfl
      rw [hfil, List.nil_append]
      exact ih seen (idx + 1)
    · rw [if_neg hmiss, if_neg hmiss]
      by_cases hseen : seen.contains (getId r) = true
      · rw [if_pos hseen, if_pos hseen]
        have hfil : ([(⟨tbl, getId r, fn, dm⟩ : ValidationError)].filter
            (fun e => e.message == dm)) = [(⟨tbl, getId r, fn, dm⟩ : ValidationError)] := by
          simp [List.filter_cons]
        rw [hfil, List.map_cons]
        exact congrArg _ (ih seen (idx + 1))
      · rw [if_neg hseen, if_neg hseen]
        show ([].filter _ ++ _) = _
        rw [List.filter_nil, List.nil_append]
        exact ih (getId r :: seen) (idx + 1)

theorem count_cons_eq (b a : Value) (l : List Value) :
    (b :: l).count a = l.count a + if b = a then 1 else 0 := by
  rw [List.count_cons]
  by_cases h : b = a
  · rw [if_pos h, if_pos (by simp [h])]
  · rw [if_neg h, if_neg (by simp [h])]

theorem count_le_cons (b a : Value) (l : List Value) : l.count a ≤ (b :: l).count a := by
  rw [count_cons_eq]
  split <;> omega

theorem dupIds_nil_of_unique (l : List Value) (seen : List Value)
    (h : ∀ w, validId w = true →
      (w ∈ seen → l.count w = 0) ∧ (w ∉ seen → l.count w ≤ 1)) :
    dupIds seen l = [] := by
  induction l generalizing seen with
  | nil => rfl
  | cons x xs ih =>
    simp only [dupIds]
    by_cases hmiss : idMissing x = true
    · rw [if_pos hmiss]
      refine ih seen (fun w hw => ⟨fun hm => ?_, fun hm => ?_⟩)
      · have := ((h w hw).1 hm)
        have h2 := count_le_cons x w xs
        omega
      · have := ((h w hw).2 hm)
        have h2 := count_le_cons x w xs
        omega
    · rw [if_neg hmiss]
      have hx : validId x = true := by
        simp [validId, hmiss]
      have hcx1 : (x :: xs).count x = xs.count x + 1 := by
        rw [count_cons_eq, if_pos rfl]
      have hxseen : x ∉ seen := by
        intro hm
        have := (h x hx).1 hm
        omega
      have hcont : seen.contains x = false := by
        cases hc : seen.contains x
        · rfl
        · exact absurd (List.elem_iff.mp hc) hxseen
      rw [hcont, if_neg (by simp)]
      have hcx2 : xs.count x = 0 := by
        have := (h x hx).2 hxseen
        omega
      refine ih (x :: seen) (fun w hw => ⟨fun hm => ?_, fun hm => ?_⟩)
      · rcases List.mem_cons.mp hm with rfl | hm2
        · exact hcx2
        · have := (h w hw).1 hm2
          have h2 := count_le_cons x w xs
          omega
      · have hm2 : w ∉ seen := fun h2 => hm (List.mem_cons_of_mem x h2)
        have := (h w hw).2 hm2
        have h2 := count_le_cons x w xs
        omega

theorem dupIds_single (v : Value) (hv : validId v = true) (l : List Value) :
    ∀ seen : List Value,
      ((v ∈ seen ∧ l.count v = 1) ∨ (v ∉ seen ∧ l.count v = 2)) →
      (∀ w, validId w = true → w ≠ v →
        (w ∈ seen → l.count w = 0) ∧ (w ∉ seen → l.count w ≤ 1)) →
      dupIds seen l = [v] := by
  induction l with
  | nil =>
    intro seen hcase _
    rcases hcase with ⟨_, hc⟩ | ⟨_, hc⟩ <;> simp [List.count_nil] at hc
  | cons x xs ih =>
    intro seen hcase hothers
    simp only [dupIds]
    by_cases hmiss : idMissing x = true
    · rw [if_pos hmiss]
      have hxv : x ≠ v := by
        intro h
        subst h
        simp [validId, hmiss] at hv
      have hcv : (x :: xs).count v = xs.count v := by
        rw [count_cons_eq, if_neg hxv]; omega
      refine ih seen ?_ (fun w hw hne => ?_)
      · rcases hcase with ⟨hm, hc⟩ | ⟨hm, hc⟩
        · exact Or.inl ⟨hm, by omega⟩
        · exact Or.inr ⟨hm, by omega⟩
      · have h1 := hothers w hw hne
        have h2 := count_le_cons x w xs
        exact ⟨fun hm => by have := h1.1 hm; omega, fun hm => by have := h1.2 hm; omega⟩
    · rw [if_neg hmiss]
      by_cases hxv : x = v
      · subst hxv
        have hcx1 : (x :: xs).count x = xs.count x + 1 := by
          rw [count_cons_eq, if_pos rfl]
        rcases hcase with ⟨hm, hc⟩ | ⟨hm, hc⟩
        · rw [if_pos (List.elem_iff.mpr hm)]
          have hrest : dupIds seen xs = [] := by
            refine dupIds_nil_of_unique xs seen (fun w hw => ?_)
            by_cases hwx : w = x
            · subst hwx
              exact ⟨fun _ => by omega, fun _ => by omega⟩
            · have h1 := hothers w hw hwx
              have h2 := count_le_cons x w xs
              exact ⟨fun hm2 => by have := h1.1 hm2; omega,
                     fun hm2 => by have := h1.2 hm2; omega⟩
          rw [hrest]
        · have hcont : seen.contains x = false := by
            cases hc2 : seen.contains x
            · rfl
            · exact absurd (List.elem_iff.mp hc2) hm
          rw [hcont, if_neg (by simp)]
          refine ih (x :: seen) (Or.inl ⟨List.mem_cons_self x seen, by omega⟩)
            (fun w hw hne => ?_)
          have h1 := hothers w hw hne
          have h2 : (x :: xs).count w = xs.count w := by
            rw [count_cons_eq, if_neg (fun h => hne (h.symm))]; omega
          refine ⟨fun hm2 => ?_, fun hm2 => ?_⟩
          · rcases List.mem_cons.mp hm2 with rfl | hm3
            · exact absurd rfl hne
            · have := h1.1 hm3
              omega
          · have hm3 : w ∉ seen := fun h3 => hm2 (List.mem_cons_of_mem x h3)
            have := h1.2 hm3
            omega
      · have hxvalid : validId x = true := by
          simp [validId, hmiss]
        have h1x := hothers x hxvalid hxv
        have hcx1 : (x :: xs).count x = xs.count x + 1 := by
          rw [count_cons_eq, if_pos rfl]
        have hxseen : x ∉ seen := by
          intro hm
          have := h1x.1 hm
          omega
        have hcont : seen.contains x = false := by
          cases hc2 : seen.contains x
          · rfl
          · exact absurd (List.elem_iff.mp hc2) hxseen
        rw [hcont, if_neg (by simp)]
        have hcv : (x :: xs).count v = xs.count v := by
          rw [count_cons_eq, if_neg hxv]; omega
        have hcx0 : xs.count x = 0 := by
          have := h1x.2 hxseen
          omega
        refine ih (x :: seen) ?_ (fun w hw hne => ?_)
        · rcases hcase with ⟨hm, hc⟩ | ⟨hm, hc⟩
          · exact Or.inl ⟨List.mem_cons_of_mem x hm, by omega⟩
          · refine Or.inr ⟨?_, by omega⟩
            rw [List.mem_cons]
            rintro (h | h)
            · exact hxv h.symm
            · exact hm h
        · have h1 := hothers w hw hne
          by_cases hwx : w = x
          · subst hwx
            exact ⟨fun _ => hcx0, fun _ => by omega⟩
          · have h2 : (x :: xs).count w = xs.count w := by
              rw [count_cons_eq, if_neg (fun h => hwx h.symm)]; omega
            refine ⟨fun hm2 => ?_, fun hm2 => ?_⟩
            · rcases List.mem_cons.mp hm2 with rfl | hm3
              · exact absurd rfl hwx
              · have := h1.1 hm3
                omega
            · have hm3 : w ∉ seen := fun h3 => hm2 (List.mem_cons_of_mem x h3)
              have := h1.2 hm3
              omega

theorem dup_characterization (tbl : Table) (fn : String) (rm dm : Msg) (getId : Row → Value)
    (extra : Row → List ValidationError)
    (hrm : (rm == dm) = false)
    (hextra : ∀ r, (extra r).filter (fun e => e.message == dm) = [])
    (f : List Value → Nat → Row → List ValidationError × List Value)
    (hf : ∀ seen idx r, f seen idx r =
      ((idCheck tbl fn rm dm (getId r) seen idx).1 ++ extra r,
       (idCheck tbl fn rm dm (getId r) seen idx).2))
    (rows : List Row) (v : Value) :
    (validId v = true →
      (rows.map getId).count v = 2 →
      (∀ w ∈ rows.map getId, validId w = true → w ≠ v → (rows.map getId).count w ≤ 1) →
      ∀ k, (scanRows f [] 0 (rows.take k)).filter (fun e => e.message == dm) =
        if ((rows.take k).map getId).count v = 2
        then [⟨tbl, v, fn, dm⟩] else []) ∧
    ((∀ w ∈ rows.map getId, validId w = true → (rows.map getId).count w ≤ 1) →
      (scanRows f [] 0 rows).filter (fun e => e.message == dm) = []) := by
  constructor
  · intro hv hc2 hothers k
    rw [scanRows_dup_filter tbl fn rm dm getId extra hrm hextra f hf (rows.take k) [] 0,
      List.map_take]
    by_cases hck : ((rows.map getId).take k).count v = 2
    · rw [if_pos hck]
      have hd := dupIds_single v hv ((rows.map getId).take k) []
        (Or.inr ⟨by simp, hck⟩) ?_
      · rw [hd]
        rfl
      · intro w hw hne
        refine ⟨fun hm => absurd hm (by simp), fun _ => ?_⟩
        by_cases hmem : w ∈ rows.map getId
        · have h1 := hothers w hmem hw hne
          have hle := (List.take_sublist k (rows.map getId)).count_le w
          omega
        · have h0 : ((rows.map getId).take k).count w = 0 := by
            rw [List.count_eq_zero]
            intro hmem2
            exact hmem ((List.take_sublist k (rows.map getId)).subset hmem2)
          omega
    · rw [if_neg hck]
      have hd := dupIds_nil_of_unique ((rows.map getId).take k) [] ?_
      · rw [hd]
        rfl
      · intro w hw
        refine ⟨fun hm => absurd hm (by simp), fun _ => ?_⟩
        have hle := (List.take_sublist k (rows.map getId)).count_le w
        by_cases hwv : w = v
        · subst hwv
          omega
        · by_cases hmem : w ∈ rows.map getId
          · have h1 := hothers w hmem hw hwv
            omega
          · have h0 : ((rows.map getId).take k).count w = 0 := by
              rw [List.count_eq_zero]
              intro hmem2
              exact hmem ((List.take_sublist k (rows.map getId)).subset hmem2)
            omega
  · intro hall
    rw [scanRows_dup_filter tbl fn rm dm getId extra hrm hextra f hf rows [] 0]
    have hd := dupIds_nil_of_unique (rows.map getId) [] ?_
    · rw [hd]
      rfl
    · intro w hw
      refine ⟨fun hm => absurd hm (by simp), fun _ => ?_⟩
      by_cases hmem : w ∈ rows.map getId
      · exact hall w hmem hw
      · have h0 : (rows.map getId).count w = 0 := List.count_eq_zero.mpr hmem
        omega

theorem clientRowErrors_shape (seen : List Value) (idx : Nat) (r : Row) :
    clientRowErrors seen idx r =
      ((idCheck .clients "ClientID" .clientIdRequired .duplicateClientId r.ClientID seen idx).1 ++
        (clientPriorityErrors r ++ clientAttrErrors r),
       (idCheck .clients "ClientID" .clientIdRequired .duplicateClientId r.ClientID seen idx).2) := by
  simp [clientRowErrors, clientIdCheck, List.append_assoc]

theorem workerRowErrors_shape (seen : List Value) (idx : Nat) (r : Row) :
    workerRowErrors seen idx r =
      ((idCheck .workers "WorkerID" .workerIdRequired .duplicateWorkerId r.WorkerID seen idx).1 ++
        (workerLoadErrors r ++ workerSlotErrors r),
       (idCheck .workers "WorkerID" .workerIdRequired .duplicateWorkerId r.WorkerID seen idx).2) := by
  simp [workerRowErrors, workerIdCheck, List.append_assoc]

theorem taskRowErrors_shape (seen : List Value) (idx : Nat) (r : Row) :
    taskRowErrors seen idx r =
      ((idCheck .tasks "TaskID" .taskIdRequired .duplicateTaskId r.TaskID seen idx).1 ++
        (taskDurationErrors r ++ taskPhasesErrors r),
       (idCheck .tasks "TaskID" .taskIdRequired .duplicateTaskId r.TaskID seen idx).2) := by
  simp [taskRowErrors, taskIdCheck, List.append_assoc]

/-- C5: for each of the three tables, when exactly two rows carry the
same valid natural identifier v and every other valid identifier is
unrepeated, every scan prefix shows exactly one Duplicate error, keyed by
v, exactly once both occurrences have been scanned (so the error is
attributed to the second occurrence); and when all valid identifiers are
pairwise unrepeated no Duplicate error is emitted at all. -/
theorem duplicate_id_errors (rows : List Row) (v : Value) :
    ((validId v = true →
      (rows.map (fun r => r.ClientID)).count v = 2 →
      (∀ w ∈ rows.map (fun r => r.ClientID), validId w = true → w ≠ v →
        (rows.map (fun r => r.ClientID)).count w ≤ 1) →
      ∀ k, (validateClients (rows.take k) []).filter (fun e => e.message == .duplicateClientId) =
        if ((rows.take k).map (fun r => r.ClientID)).count v = 2
        then [⟨.clients, v, "ClientID", .duplicateClientId⟩] else []) ∧
     ((∀ w ∈ rows.map (fun r => r.ClientID), validId w = true →
        (rows.map (fun r => r.ClientID)).count w ≤ 1) →
      (validateClients rows []).filter (fun e => e.message == .duplicateClientId) = [])) ∧
    ((validId v = true →
      (rows.map (fun r => r.WorkerID)).count v = 2 →
      (∀ w ∈ rows.map (fun r => r.WorkerID), validId w = true → w ≠ v →
        (rows.map (fun r => r.WorkerID)).count w ≤ 1) →
      ∀ k, (validateWorkers (rows.take k)).filter (fun e => e.message == .duplicateWorkerId) =
        if ((rows.take k).map (fun r => r.WorkerID)).count v = 2
        then [⟨.workers, v, "WorkerID", .duplicateWorkerId⟩] else []) ∧
     ((∀ w ∈ rows.map (fun r => r.WorkerID), validId w = true →
        (rows.map (fun r => r.WorkerID)).count w ≤ 1) →
      (validateWorkers rows).filter (fun e => e.message == .duplicateWorkerId) = [])) ∧
    ((validId v = true →
      (rows.map (fun r => r.TaskID)).count v = 2 →
      (∀ w ∈ rows.map (fun r => r.TaskID), validId w = true → w ≠ v →
        (rows.map (fun r => r.TaskID)).count w ≤ 1) →
      ∀ k, (validateTasks (rows.take k)).filter (fun e => e.message == .duplicateTaskId) =
        if ((rows.take k).map (fun r => r.TaskID)).count v = 2
        then [⟨.tasks, v, "TaskID", .duplicateTaskId⟩] else []) ∧
     ((∀ w ∈ rows.map (fun r => r.TaskID), validId w = true →
        (rows.map (fun r => r.TaskID)).count w ≤ 1) →
      (validateTasks rows).filter (fun e => e.message == .duplicateTaskId) = [])) := by
  refine ⟨?_, ?_, ?_⟩
  · exact dup_characterization .clients "ClientID" .clientIdRequired .duplicateClientId
      (fun r => r.ClientID) (fun r => clientPriorityErrors r ++ clientAttrErrors r) rfl
      (fun r => by
        rw [List.filter_append,
          filter_of_countP_zero _ _ (clientPriorityErrors_countP_zero r _ rfl),
          filter_of_countP_zero _ _ (clientAttrErrors_countP_zero r _ rfl)]
        rfl)
      clientRowErrors clientRowErrors_shape rows v
  · exact dup_characterization .workers "WorkerID" .workerIdRequired .duplicateWorkerId
      (fun r => r.WorkerID) (fun r => workerLoadErrors r ++ workerSlotErrors r) rfl
      (fun r => by
        rw [List.filter_append,
          filter_of_countP_zero _ _ (workerLoadErrors_countP_zero r _ rfl),
          filter_of_countP_zero _ _ (workerSlotErrors_countP_zero r _ (fun _ _ => rfl) rfl)]
        rfl)
      workerRowErrors workerRowErrors_shape rows v
  · exact dup_characterization .tasks "TaskID" .taskIdRequired .duplicateTaskId
      (fun r => r.TaskID) (fun r => taskDurationErrors r ++ taskPhasesErrors r) rfl
      (fun r => by
        rw [List.filter_append,
          filter_of_countP_zero _ _ (taskDurationErrors_countP_zero r _ rfl),
          filter_of_countP_zero _ _ (taskPhasesErrors_countP_zero r _ rfl)]
        rfl)
      taskRowErrors taskRowErrors_shape rows v

/-- Witness for C5: three client rows with identifiers A, B, A produce
exactly one Duplicate error keyed by A, present for the full scan and
absent for the two-row prefix. -/
theorem duplicate_id_errors_witness :
    (validateClients
        [{ ClientID := .str "A", PriorityLevel := .str "3" },
         { ClientID := .str "B", PriorityLevel := .str "3" },
         { ClientID := .str "A", PriorityLevel := .str "3" }] []).filter
      (fun e => e.message == .duplicateClientId) =
      [⟨.clients, .str "A", "ClientID", .duplicateClientId⟩] := by
  have h := ((duplicate_id_errors
    [{ ClientID := .str "A", PriorityLevel := .str "3" },
     { ClientID := .str "B", PriorityLevel := .str "3" },
     { ClientID := .str "A", PriorityLevel := .str "3" }] (.str "A")).1).1
    (by decide) (by decide) (by decide) 3
  exact h.trans (by decide)

/-! C3. -/

/-- The property keys of a task's parsed PreferredPhases array; empty
when the cell is falsy, unparseable, or parses to a non-array. -/
def taskPhaseKeys (t : Row) : List String :=
  if t.PreferredPhases.truthy then
    match jsonParseVal t.PreferredPhases with
    | some (.arr phases) => phases.map phaseKey
    | _ => []
  else []

/-- The property keys of a worker's parsed AvailableSlots array; empty
when the cell is unparseable or parses to a non-array. -/
def workerPhaseKeys (w : Row) : List String :=
  match jsonParseVal w.AvailableSlots with
  | some (.arr slots) => slots.map phaseKey
  | _ => []

/-- The finite value of a JavaScript number, 0 for the non-finite ones. -/
def finPart : JSNum → ℚ
  | .fin q => q
  | _ => 0

/-- The duration-weighted demand the tasks place on one phase key, each
listing of the phase adding the task's Duration once. -/
def phaseDemandSpec (tasks : List Row) (p : String) : ℚ :=
  (tasks.map (fun t => ((taskPhaseKeys t).count p : ℚ) * finPart (toNumber t.Duration))).sum

/-- The supply the workers provide on one phase key: one unit per
listing per worker. -/
def phaseSupplySpec (workers : List Row) (p : String) : Nat :=
  (workers.map (fun w => (workerPhaseKeys w).count p)).sum

/-- Every entry of the map carries a finite number. -/
def entriesFin (m : NumRecord) : Prop :=
  ∀ p v, recGet m p = some v → ∃ c, v = .fin c

theorem phaseFold_get_fin (dq : ℚ) (elems : List JSON) (p : String) :
    ∀ (m : NumRecord),
      (∀ c, recGet m p = some (.fin c) →
        recGet (phaseFold (.fin dq) m elems) p =
          some (.fin (c + ((elems.map phaseKey).count p : ℚ) * dq))) ∧
      (recGet m p = none →
        recGet (phaseFold (.fin dq) m elems) p =
          if (elems.map phaseKey).count p = 0 then none
          else some (.fin (((elems.map phaseKey).count p : ℚ) * dq))) := by
  induction elems with
  | nil =>
    intro m
    refine ⟨fun c hc => ?_, fun hn => ?_⟩
    · simpa [phaseFold] using hc
    · simpa [phaseFold] using hn
  | cons e es ih =>
    intro m
    have hstep : phaseFold (.fin dq) m (e :: es) =
        phaseFold (.fin dq)
          (recSet m (phaseKey e) ((orZero (recGet m (phaseKey e))).add (.fin dq))) es := rfl
    by_cases hk : phaseKey e = p
    · have hcount : ((e :: es).map phaseKey).count p = (es.map phaseKey).count p + 1 := by
        rw [List.map_cons, List.count_cons]
        simp [hk]
      refine ⟨fun c hc => ?_, fun hn => ?_⟩
      · have hentry : recGet (recSet m (phaseKey e)
            ((orZero (recGet m (phaseKey e))).add (.fin dq))) p = some (.fin (c + dq)) := by
          rw [hk, recGet_recSet_self, hc, orZero_fin, JSNum.add_fin]
        rw [hstep, (ih _).1 (c + dq) hentry, hcount]
        push_cast
        ring_nf
      · have hentry : recGet (recSet m (phaseKey e)
            ((orZero (recGet m (phaseKey e))).add (.fin dq))) p = some (.fin (0 + dq)) := by
          rw [hk, recGet_recSet_self, hn]
          show some ((JSNum.fin 0).add (.fin dq)) = _
          rw [JSNum.add_fin]
        rw [hstep, (ih _).1 (0 + dq) hentry, hcount]
        push_cast
        ring_nf
    · have hcount : ((e :: es).map phaseKey).count p = (es.map phaseKey).count p := by
        rw [List.map_cons, List.count_cons]
        simp [hk]
      have hpres : recGet (recSet m (phaseKey e)
          ((orZero (recGet m (phaseKey e))).add (.fin dq))) p = recGet m p :=
        recGet_recSet_ne _ _ _ _ hk
      refine ⟨fun c hc => ?_, fun hn => ?_⟩
      · rw [hstep, (ih _).1 c (hpres.trans hc), hcount]
      · rw [hstep, (ih _).2 (hpres.trans hn), hcount]

theorem phaseFold_get_nan (elems : List JSON) (p : String) :
    ∀ (m : NumRecord),
      (((elems.map phaseKey).count p ≠ 0 →
        recGet (phaseFold .nan m elems) p = some .nan)) ∧
      (((elems.map phaseKey).count p = 0 →
        recGet (phaseFold .nan m elems) p = recGet m p)) := by
  induction elems with
  | nil =>
    intro m
    exact ⟨fun h => absurd rfl h, fun _ => rfl⟩
  | cons e es ih =>
    intro m
    have hstep : phaseFold .nan m (e :: es) =
        phaseFold .nan
          (recSet m (phaseKey e) ((orZero (recGet m (phaseKey e))).add .nan)) es := rfl
    by_cases hk : phaseKey e = p
    · have hentry : recGet (recSet m (phaseKey e)
          ((orZero (recGet m (phaseKey e))).add .nan)) p = some .nan := by
        rw [JSNum.add_nan_right, ← hk, recGet_recSet_self]
      refine ⟨fun _ => ?_, fun hz => ?_⟩
      · rw [hstep]
        rcases Nat.eq_zero_or_pos ((es.map phaseKey).count p) with hz2 | hpos
        · rw [(ih _).2 hz2, hentry]
        · exact (ih _).1 (by omega)
      · exfalso
        rw [List.map_cons, List.count_cons] at hz
        simp [hk] at hz
    · have hcount : ((e :: es).map phaseKey).count p = (es.map phaseKey).count p := by
        rw [List.map_cons, List.count_cons]
        simp [hk]
      have hpres : recGet (recSet m (phaseKey e)
          ((orZero (recGet m (phaseKey e))).add .nan)) p = recGet m p :=
        recGet_recSet_ne _ _ _ _ hk
      refine ⟨fun hnz => ?_, fun hz => ?_⟩
      · rw [hstep, (ih _).1 (by rwa [hcount] at hnz)]
      · rw [hstep, (ih _).2 (by rwa [hcount] at hz), hpres]

theorem entriesFin_recSet (m : NumRecord) (k : String) (v : JSNum)
    (hm : entriesFin m) (hv : ∃ c, v = .fin c) : entriesFin (recSet m k v) := by
  intro p w hw
  by_cases hk : k = p
  · subst hk
    rw [recGet_recSet_self] at hw
    cases hw
    exact hv
  · rw [recGet_recSet_ne _ _ _ _ hk] at hw
    exact hm p w hw

theorem entriesFin_phaseFold (dq : ℚ) (elems : List JSON) :
    ∀ m, entriesFin m → entriesFin (phaseFold (.fin dq) m elems) := by
  induction elems with
  | nil => exact fun m hm => hm
  | cons e es ih =>
    intro m hm
    refine ih _ (entriesFin_recSet _ _ _ hm ?_)
    rcases hg : recGet m (phaseKey e) with _ | v
    · exact ⟨0 + dq, by rw [show orZero none = JSNum.fin 0 from rfl, JSNum.add_fin]⟩
    · obtain ⟨c, rfl⟩ := hm _ _ hg
      exact ⟨c + dq, by rw [orZero_fin, JSNum.add_fin]⟩

theorem entriesFin_addTaskDemand (m : NumRecord) (t : Row)
    (hm : entriesFin m) (hfin : ∃ q, toNumber t.Duration = .fin q) :
    entriesFin (addTaskDemand m t) := by
  obtain ⟨dq, hdq⟩ := hfin
  unfold addTaskDemand
  split
  · exact hm
  · split
    · rw [hdq]
      exact entriesFin_phaseFold dq _ m hm
    · exact hm

theorem entriesFin_addWorkerSupply (m : NumRecord) (w : Row) (hm : entriesFin m) :
    entriesFin (addWorkerSupply m w) := by
  unfold addWorkerSupply
  split
  · exact entriesFin_phaseFold 1 _ m hm
  · exact hm

theorem addTaskDemand_get (m : NumRecord) (t : Row) (p : String) (dq : ℚ)
    (hdq : toNumber t.Duration = .fin dq) :
    (∀ c, recGet m p = some (.fin c) →
      recGet (addTaskDemand m t) p = some (.fin (c + ((taskPhaseKeys t).count p : ℚ) * dq))) ∧
    (recGet m p = none →
      recGet (addTaskDemand m t) p =
        if (taskPhaseKeys t).count p = 0 then none
        else some (.fin (((taskPhaseKeys t).count p : ℚ) * dq))) := by
  unfold addTaskDemand taskPhaseKeys
  by_cases htr : t.PreferredPhases.truthy
  · rw [if_neg (by simp [htr]), if_pos htr]
    cases hj : jsonParseVal t.PreferredPhases with
    | none =>
      refine ⟨fun c hc => ?_, fun hn => ?_⟩
      · simpa using hc
      · simp [hn]
    | some j =>
      cases j with
      | arr phases =>
        rw [hdq]
        exact phaseFold_get_fin dq phases p m
      | null => exact ⟨fun c hc => by simpa using hc, fun hn => by simp [hn]⟩
      | bool b => exact ⟨fun c hc => by simpa using hc, fun hn => by simp [hn]⟩
      | num q => exact ⟨fun c hc => by simpa using hc, fun hn => by simp [hn]⟩
      | str s => exact ⟨fun c hc => by simpa using hc, fun hn => by simp [hn]⟩
      | obj fs => exact ⟨fun c hc => by simpa using hc, fun hn => by simp [hn]⟩
  · rw [if_pos (by simp [htr]), if_neg htr]
    refine ⟨fun c hc => ?_, fun hn => ?_⟩
    · simpa using hc
    · simp [hn]

theorem addWorkerSupply_get (m : NumRecord) (w : Row) (p : String) :
    (∀ c, recGet m p = some (.fin c) →
      recGet (addWorkerSupply m w) p = some (.fin (c + ((workerPhaseKeys w).count p : ℚ)))) ∧
    (recGet m p = none →
      recGet (addWorkerSupply m w) p =
        if (workerPhaseKeys w).count p = 0 then none
        else some (.fin ((workerPhaseKeys w).count p : ℚ))) := by
  unfold addWorkerSupply workerPhaseKeys
  cases hj : jsonParseVal w.AvailableSlots with
  | none =>
    refine ⟨fun c hc => ?_, fun hn => ?_⟩
    · simpa using hc
    · simp [hn]
  | some j =>
    cases j with
    | arr slots =>
      have h := phaseFold_get_fin 1 slots p m
      refine ⟨fun c hc => ?_, fun hn => ?_⟩
      · rw [h.1 c hc, mul_one]
      · rw [h.2 hn]
        split
        · rfl
        · rw [mul_one]
    | null => exact ⟨fun c hc => by simpa using hc, fun hn => by simp [hn]⟩
    | bool b => exact ⟨fun c hc => by simpa using hc, fun hn => by simp [hn]⟩
    | num q => exact ⟨fun c hc => by simpa using hc, fun hn => by simp [hn]⟩
    | str s => exact ⟨fun c hc => by simpa using hc, fun hn => by simp [hn]⟩
    | obj fs => exact ⟨fun c hc => by simpa using hc, fun hn => by simp [hn]⟩

theorem phaseDemandSpec_cons (t : Row) (ts : List Row) (p : String) (dq : ℚ)
    (hdq : toNumber t.Duration = .fin dq) :
    phaseDemandSpec (t :: ts) p =
      ((taskPhaseKeys t).count p : ℚ) * dq + phaseDemandSpec ts p := by
  simp [phaseDemandSpec, hdq, finPart]

theorem demand_fold_get (p : String) (ts : List Row)
    (hfin : ∀ t ∈ ts, ∃ q, toNumber t.Duration = .fin q) :
    ∀ m, entriesFin m →
      (∀ c, recGet m p = some (.fin c) →
        recGet (ts.foldl addTaskDemand m) p = some (.fin (c + phaseDemandSpec ts p))) ∧
      (recGet m p = none →
        recGet (ts.foldl addTaskDemand m) p =
          if ∀ t ∈ ts, (taskPhaseKeys t).count p = 0 then none
          else some (.fin (phaseDemandSpec ts p))) := by
  induction ts with
  | nil =>
    intro m _
    constructor
    · intro c hc
      simpa [phaseDemandSpec] using hc
    · intro hn
      simp [phaseDemandSpec, hn]
  | cons t ts ih =>
    intro m hm
    obtain ⟨dq, hdq⟩ := hfin t (by simp)
    have hfin2 : ∀ t2 ∈ ts, ∃ q, toNumber t2.Duration = .fin q :=
      fun t2 h2 => hfin t2 (by simp [h2])
    have hm2 : entriesFin (addTaskDemand m t) := entriesFin_addTaskDemand m t hm ⟨dq, hdq⟩
    have hstep := addTaskDemand_get m t p dq hdq
    have hih := ih hfin2 (addTaskDemand m t) hm2
    have hfold : (t :: ts).foldl addTaskDemand m = ts.foldl addTaskDemand (addTaskDemand m t) := rfl
    have hspec := phaseDemandSpec_cons t ts p dq hdq
    constructor
    · intro c hc
      rw [hfold, hih.1 (c + ((taskPhaseKeys t).count p : ℚ) * dq) (hstep.1 c hc), hspec]
      ring_nf
    · intro hn
      rcases Nat.eq_zero_or_pos ((taskPhaseKeys t).count p) with hz | hpos
      · have hpres := hstep.2 hn
        rw [if_pos hz] at hpres
        rw [hfold, hih.2 hpres, hspec, hz]
        by_cases hall : ∀ t2 ∈ ts, (taskPhaseKeys t2).count p = 0
        · rw [if_pos hall, if_pos ?all2]
          case all2 =>
            intro t2 h2
            rcases List.mem_cons.mp h2 with rfl | h3
            · exact hz
            · exact hall t2 h3
        · rw [if_neg hall, if_neg ?nall2]
          · push_cast
            ring_nf
          case nall2 =>
            intro hall2
            exact hall (fun t2 h2 => hall2 t2 (List.mem_cons_of_mem t h2))
      · have hentry := hstep.2 hn
        rw [if_neg (by omega)] at hentry
        rw [hfold, hih.1 _ hentry, hspec]
        rw [if_neg ?nall3]
        case nall3 =>
          intro hall2
          have := hall2 t (by simp)
          omega

theorem supply_fold_get (p : String) (ws : List Row) :
    ∀ m, entriesFin m →
      (∀ c, recGet m p = some (.fin c) →
        recGet (ws.foldl addWorkerSupply m) p =
          some (.fin (c + (phaseSupplySpec ws p : ℚ)))) ∧
      (recGet m p = none →
        recGet (ws.foldl addWorkerSupply m) p =
          if ∀ w ∈ ws, (workerPhaseKeys w).count p = 0 then none
          else some (.fin ((phaseSupplySpec ws p : ℚ)))) := by
  induction ws with
  | nil =>
    intro m _
    constructor
    · intro c hc
      simpa [phaseSupplySpec] using hc
    · intro hn
      simp [phaseSupplySpec, hn]
  | cons w ws ih =>
    intro m hm
    have hm2 : entriesFin (addWorkerSupply m w) := entriesFin_addWorkerSupply m w hm
    have hstep := addWorkerSupply_get m w p
    have hih := ih (addWorkerSupply m w) hm2
    have hfold : (w :: ws).foldl addWorkerSupply m = ws.foldl addWorkerSupply (addWorkerSupply m w) := rfl
    have hspec : ((phaseSupplySpec (w :: ws) p : Nat) : ℚ) =
        ((workerPhaseKeys w).count p : ℚ) + (phaseSupplySpec ws p : ℚ) := by
      simp [phaseSupplySpec]
    constructor
    · intro c hc
      rw [hfold, hih.1 _ (hstep.1 c hc), hspec]
      ring_nf
    · intro hn
      rcases Nat.eq_zero_or_pos ((workerPhaseKeys w).count p) with hz | hpos
      · have hpres := hstep.2 hn
        rw [if_pos hz] at hpres
        rw [hfold, hih.2 hpres, hspec, hz]
        by_cases hall : ∀ w2 ∈ ws, (workerPhaseKeys w2).count p = 0
        · rw [if_pos hall, if_pos ?sall2]
          case sall2 =>
            intro w2 h2
            rcases List.mem_cons.mp h2 with rfl | h3
            · exact hz
            · exact hall w2 h3
        · rw [if_neg hall, if_neg ?snall2]
          · push_cast
            ring_nf
          case snall2 =>
            intro hall2
            exact hall (fun w2 h2 => hall2 w2 (List.mem_cons_of_mem w h2))
      · have hentry := hstep.2 hn
        rw [if_neg (by omega)] at hentry
        rw [hfold, hih.1 _ hentry, hspec]
        rw [if_neg ?snall3]
        case snall3 =>
          intro hall2
          have := hall2 w (by simp)
          omega

theorem recGet_ne_none_iff (m : NumRecord) (p : String) :
    recGet m p ≠ none ↔ p ∈ m.map Prod.fst := by
  induction m with
  | nil => simp [recGet]
  | cons kv rest ih =>
    by_cases h : kv.1 = p
    · simp [recGet, h]
    · simp only [recGet, if_neg h, List.map_cons, List.mem_cons]
      rw [ih]
      constructor
      · exact fun h2 => Or.inr h2
      · rintro (h2 | h2)
        · exact absurd h2.symm h
        · exact h2

theorem mem_objKeys_iff (m : NumRecord) (p : String) :
    p ∈ objKeys m ↔ p ∈ m.map Prod.fst := by
  unfold objKeys
  rw [List.mem_append, (List.perm_insertionSort _ _).mem_iff, List.mem_filter, List.mem_filter]
  constructor
  · rintro (⟨h1, _⟩ | ⟨h1, _⟩) <;> exact h1
  · intro h1
    cases harr : arrayIndexKey p with
    | none => exact Or.inr ⟨h1, rfl⟩
    | some n => exact Or.inl ⟨h1, rfl⟩

theorem recSet_keys_mem (m : NumRecord) (k : String) (v : JSNum) (x : String)
    (hx : x ∈ (recSet m k v).map Prod.fst) : x ∈ m.map Prod.fst ∨ x = k := by
  induction m with
  | nil =>
    simp [recSet] at hx
    exact Or.inr hx
  | cons kv rest ih =>
    by_cases h : kv.1 = k
    · simp only [recSet, if_pos h, List.map_cons, List.mem_cons] at hx
      rcases hx with hx | hx
      · exact Or.inl (by simp [hx])
      · exact Or.inl (by simp [hx])
    · simp only [recSet, if_neg h, List.map_cons, List.mem_cons] at hx
      rcases hx with hx | hx
      · exact Or.inl (by simp [hx])
      · rcases ih hx with h2 | h2
        · exact Or.inl (by simp [h2])
        · exact Or.inr h2

theorem recSet_keys_nodup (m : NumRecord) (k : String) (v : JSNum)
    (h : (m.map Prod.fst).Nodup) : ((recSet m k v).map Prod.fst).Nodup := by
  induction m with
  | nil => simp [recSet]
  | cons kv rest ih =>
    rw [List.map_cons, List.nodup_cons] at h
    by_cases hk : kv.1 = k
    · simp only [recSet, if_pos hk, List.map_cons, List.nodup_cons]
      exact ⟨h.1, h.2⟩
    · simp only [recSet, if_neg hk, List.map_cons, List.nodup_cons]
      refine ⟨fun hmem => ?_, ih h.2⟩
      rcases recSet_keys_mem rest k v kv.1 hmem with h2 | h2
      · exact h.1 h2
      · exact hk h2

theorem phaseFold_keys_nodup (d : JSNum) (elems : List JSON) :
    ∀ m, (m.map Prod.fst).Nodup → ((phaseFold d m elems).map Prod.fst).Nodup := by
  induction elems with
  | nil => exact fun m hm => hm
  | cons e es ih => exact fun m hm => ih _ (recSet_keys_nodup m _ _ hm)

theorem addTaskDemand_keys_nodup (m : NumRecord) (t : Row)
    (hm : (m.map Prod.fst).Nodup) : ((addTaskDemand m t).map Prod.fst).Nodup := by
  unfold addTaskDemand
  split
  · exact hm
  · split
    · exact phaseFold_keys_nodup _ _ m hm
    · exact hm

theorem demand_fold_keys_nodup (ts : List Row) :
    ∀ m, (m.map Prod.fst).Nodup → ((ts.foldl addTaskDemand m).map Prod.fst).Nodup := by
  induction ts with
  | nil => exact fun m hm => hm
  | cons t ts ih => exact fun m hm => ih _ (addTaskDemand_keys_nodup m t hm)

theorem objKeys_nodup (m : NumRecord) (h : (m.map Prod.fst).Nodup) : (objKeys m).Nodup := by
  unfold objKeys
  rw [List.nodup_append]
  refine ⟨(List.perm_insertionSort _ _).nodup_iff.mpr (h.filter _), h.filter _, ?_⟩
  intro x hx1 hx2
  have hx1b := (List.perm_insertionSort _ _).mem_iff.mp hx1
  rw [List.mem_filter] at hx1b hx2
  have h1 := hx1b.2
  have h2 := hx2.2
  simp only [Option.isNone] at h2
  cases harr : arrayIndexKey x
  · rw [harr] at h1
    simp at h1
  · rw [harr] at h2
    simp at h2

/-- Does an error's message report saturation of this phase? -/
def mentionsPhase (p : String) (e : ValidationError) : Bool :=
  match e.message with
  | .phaseOverbooked p2 _ _ => p2 == p
  | _ => false

theorem entriesFin_nil : entriesFin [] := by
  intro p v hv
  simp [recGet] at hv

theorem countP_listFlatMap (g : α → List β) (P : β → Bool) (l : List α) :
    (listFlatMap g l).countP P = (l.map (fun a => (g a).countP P)).sum := by
  induction l with
  | nil => rfl
  | cons x xs ih =>
    show (g x ++ listFlatMap g xs).countP P = _
    rw [List.countP_append, List.map_cons, List.sum_cons, ih]

theorem sum_map_single (l : List String) (hl : l.Nodup) (p : String) (f : String → Nat)
    (hf : ∀ x, x ≠ p → f x = 0) :
    (l.map f).sum = if p ∈ l then f p else 0 := by
  induction l with
  | nil => rfl
  | cons x xs ih =>
    rw [List.map_cons, List.sum_cons]
    rw [List.nodup_cons] at hl
    by_cases hx : x = p
    · subst hx
      rw [if_pos (List.mem_cons_self x xs)]
      have hz : (xs.map f).sum = 0 := by
        rw [ih hl.2, if_neg hl.1]
      omega
    · rw [hf x hx, ih hl.2]
      by_cases hp : p ∈ xs
      · rw [if_pos hp, if_pos (List.mem_cons_of_mem x hp)]
        omega
      · rw [if_neg hp, if_neg (by
          rw [List.mem_cons]
          rintro (h | h)
          · exact hx h.symm
          · exact hp h)]

/-- The demand entry of the final demand map. -/
theorem demand_map_get (tasks : List Row) (p : String)
    (hfin : ∀ t ∈ tasks, ∃ q, toNumber t.Duration = .fin q) :
    recGet (tasks.foldl addTaskDemand []) p =
      if ∀ t ∈ tasks, (taskPhaseKeys t).count p = 0 then none
      else some (.fin (phaseDemandSpec tasks p)) :=
  (demand_fold_get p tasks hfin [] entriesFin_nil).2 rfl

/-- The defaulted supply read of the final supply map. -/
theorem supply_map_get (workers : List Row) (p : String) :
    orZero (recGet (workers.foldl addWorkerSupply []) p) =
      .fin ((phaseSupplySpec workers p : ℚ)) := by
  rw [(supply_fold_get p workers [] entriesFin_nil).2 rfl]
  by_cases hall : ∀ w ∈ workers, (workerPhaseKeys w).count p = 0
  · rw [if_pos hall]
    have hz : phaseSupplySpec workers p = 0 := by
      refine List.sum_eq_zero ?_
      intro x hx
      rw [List.mem_map] at hx
      obtain ⟨w, hw, rfl⟩ := hx
      exact hall w hw
    rw [hz]
    rfl
  · rw [if_neg hall, orZero_fin]

theorem satErr_spec (tasks workers : List Row) (p : String)
    (hfin : ∀ t ∈ tasks, ∃ q, toNumber t.Duration = .fin q) :
    satErr (tasks.foldl addTaskDemand []) (workers.foldl addWorkerSupply []) p =
      if (¬ ∀ t ∈ tasks, (taskPhaseKeys t).count p = 0) ∧
          (phaseSupplySpec workers p : ℚ) < phaseDemandSpec tasks p then
        [⟨.tasks, .num (.fin (-1)), "PreferredPhases",
          .phaseOverbooked p (.fin (phaseDemandSpec tasks p))
            (.fin ((phaseSupplySpec workers p : ℚ)))⟩]
      else [] := by
  unfold satErr
  rw [demand_map_get tasks p hfin]
  by_cases hall : ∀ t ∈ tasks, (taskPhaseKeys t).count p = 0
  · rw [if_pos hall, if_neg (fun h => h.1 hall)]
  · rw [if_neg hall]
    show (if (JSNum.fin (phaseDemandSpec tasks p)).gt
        (orZero (recGet (workers.foldl addWorkerSupply []) p)) = true then _ else _) = _
    rw [supply_map_get workers p]
    by_cases hlt : (phaseSupplySpec workers p : ℚ) < phaseDemandSpec tasks p
    · rw [if_pos (by
        show JSNum.lt (.fin ((phaseSupplySpec workers p : ℚ))) (.fin (phaseDemandSpec tasks p)) = true
        show decide ((phaseSupplySpec workers p : ℚ) < phaseDemandSpec tasks p) = true
        exact decide_eq_true hlt), if_pos ⟨hall, hlt⟩]
    · rw [if_neg (by
        show ¬ JSNum.lt (.fin ((phaseSupplySpec workers p : ℚ))) (.fin (phaseDemandSpec tasks p)) = true
        show ¬ decide ((phaseSupplySpec workers p : ℚ) < phaseDemandSpec tasks p) = true
        simp [hlt]), if_neg (by
        rintro ⟨_, h2⟩
        exact hlt h2)]

/-- C3: validatePhaseSaturation accumulates each task's Duration into
the demand entry of every phase key listed in its parsed PreferredPhases
array (tasks with a falsy, unparseable or non-array cell contribute
nothing), counts one unit of supply per listing per worker from parsed
AvailableSlots, and emits exactly one aggregate error, with row -1,
table tasks, field PreferredPhases, and the phase, demand and supply in
the message, for each demanded phase whose demand strictly exceeds its
supply (missing supply counting as 0); phases with demand at most
supply, or with supply but no demand, produce no error.  The two
end-to-end scenarios behave as specified. -/
theorem phase_saturation_spec (tasks workers : List Row)
    (hfin : ∀ t ∈ tasks, ∃ q, toNumber t.Duration = .fin q) :
    (∀ p, recGet (tasks.foldl addTaskDemand []) p =
      if ∀ t ∈ tasks, (taskPhaseKeys t).count p = 0 then none
      else some (.fin (phaseDemandSpec tasks p))) ∧
    (∀ p, orZero (recGet (workers.foldl addWorkerSupply []) p) =
      .fin ((phaseSupplySpec workers p : ℚ))) ∧
    (∀ e, e ∈ validatePhaseSaturation tasks workers ↔
      ∃ p, (∃ t ∈ tasks, p ∈ taskPhaseKeys t) ∧
        (phaseSupplySpec workers p : ℚ) < phaseDemandSpec tasks p ∧
        e = ⟨.tasks, .num (.fin (-1)), "PreferredPhases",
          .phaseOverbooked p (.fin (phaseDemandSpec tasks p))
            (.fin ((phaseSupplySpec workers p : ℚ)))⟩) ∧
    (∀ p, (validatePhaseSaturation tasks workers).countP (mentionsPhase p) =
      if (∃ t ∈ tasks, p ∈ taskPhaseKeys t) ∧
          (phaseSupplySpec workers p : ℚ) < phaseDemandSpec tasks p then 1 else 0) ∧
    validatePhaseSaturation [{ Duration := .str "5", PreferredPhases := .str "[1]" }]
        [{ AvailableSlots := .str "[1]" }] =
      [⟨.tasks, .num (.fin (-1)), "PreferredPhases", .phaseOverbooked "1" (.fin 5) (.fin 1)⟩] ∧
    validatePhaseSaturation [{ Duration := .str "5", PreferredPhases := .str "[1]" }]
        (List.replicate 5 { AvailableSlots := .str "[1]" }) = [] := by
  have hbridge : ∀ p, (∃ t ∈ tasks, p ∈ taskPhaseKeys t) ↔
      ¬ ∀ t ∈ tasks, (taskPhaseKeys t).count p = 0 := by
    intro p
    constructor
    · rintro ⟨t, ht, hp⟩ hall
      exact (List.count_eq_zero.mp (hall t ht)) hp
    · intro hnall
      by_contra hne
      push_neg at hne
      exact hnall (fun t ht => List.count_eq_zero.mpr (hne t ht))
  have hflat : validatePhaseSaturation tasks workers =
      listFlatMap
        (satErr (tasks.foldl addTaskDemand []) (workers.foldl addWorkerSupply []))
        (objKeys (tasks.foldl addTaskDemand [])) := rfl
  have hkeynodup : (objKeys (tasks.foldl addTaskDemand [])).Nodup :=
    objKeys_nodup _ (demand_fold_keys_nodup tasks [] (by simp))
  have hmemkey : ∀ p, p ∈ objKeys (tasks.foldl addTaskDemand []) ↔
      ¬ ∀ t ∈ tasks, (taskPhaseKeys t).count p = 0 := by
    intro p
    rw [mem_objKeys_iff, ← recGet_ne_none_iff, demand_map_get tasks p hfin]
    by_cases hall : ∀ t ∈ tasks, (taskPhaseKeys t).count p = 0
    · simp [hall]
    · simp [hall]
  refine ⟨fun p => demand_map_get tasks p hfin, fun p => supply_map_get workers p,
    ?_, ?_, by decide, by decide⟩
  · intro e
    rw [hflat, listFlatMap_mem]
    constructor
    · rintro ⟨p, hpk, hpe⟩
      rw [satErr_spec tasks workers p hfin] at hpe
      by_cases hcond : (¬ ∀ t ∈ tasks, (taskPhaseKeys t).count p = 0) ∧
          (phaseSupplySpec workers p : ℚ) < phaseDemandSpec tasks p
      · rw [if_pos hcond, List.mem_singleton] at hpe
        exact ⟨p, (hbridge p).mpr hcond.1, hcond.2, hpe⟩
      · rw [if_neg hcond] at hpe
        exact absurd hpe (List.not_mem_nil e)
    · rintro ⟨p, hcontrib, hlt, rfl⟩
      refine ⟨p, (hmemkey p).mpr ((hbridge p).mp hcontrib), ?_⟩
      rw [satErr_spec tasks workers p hfin,
        if_pos ⟨(hbridge p).mp hcontrib, hlt⟩]
      exact List.mem_singleton.mpr rfl
  · intro p
    rw [hflat, countP_listFlatMap, sum_map_single _ hkeynodup p _ ?hz]
    case hz =>
      intro x hx
      rw [satErr_spec tasks workers x hfin]
      by_cases hcond : (¬ ∀ t ∈ tasks, (taskPhaseKeys t).count x = 0) ∧
          (phaseSupplySpec workers x : ℚ) < phaseDemandSpec tasks x
      · rw [if_pos hcond]
        have hm : mentionsPhase p (⟨.tasks, .num (.fin (-1)), "PreferredPhases",
            .phaseOverbooked x (.fin (phaseDemandSpec tasks x))
              (.fin ((phaseSupplySpec workers x : ℚ)))⟩ : ValidationError) = false := by
          show (x == p) = false
          simpa using hx
        rw [List.countP_cons, hm]
        rfl
      · rw [if_neg hcond]
        rfl
    by_cases hmem : p ∈ objKeys (tasks.foldl addTaskDemand [])
    · rw [if_pos hmem, satErr_spec tasks workers p hfin]
      have hnall := (hmemkey p).mp hmem
      by_cases hlt : (phaseSupplySpec workers p : ℚ) < phaseDemandSpec tasks p
      · rw [if_pos ⟨hnall, hlt⟩, if_pos ⟨(hbridge p).mpr hnall, hlt⟩]
        have hm : mentionsPhase p (⟨.tasks, .num (.fin (-1)), "PreferredPhases",
            .phaseOverbooked p (.fin (phaseDemandSpec tasks p))
              (.fin ((phaseSupplySpec workers p : ℚ)))⟩ : ValidationError) = true := by
          show (p == p) = true
          simp
        rw [List.countP_cons, hm]
        rfl
      · rw [if_neg (fun h => hlt h.2), if_neg (fun h => hlt h.2)]
        rfl
    · rw [if_neg hmem, if_neg (fun h => hmem ((hmemkey p).mpr ((hbridge p).mp h.1)))]

/-- Witness for C3 at the end-to-end scenario. -/
theorem phase_saturation_spec_witness :
    validatePhaseSaturation [{ Duration := .str "5", PreferredPhases := .str "[1]" }]
        [{ AvailableSlots := .str "[1]" }] =
      [⟨.tasks, .num (.fin (-1)), "PreferredPhases", .phaseOverbooked "1" (.fin 5) (.fin 1)⟩] :=
  (phase_saturation_spec [{ Duration := .str "5", PreferredPhases := .str "[1]" }]
    [{ AvailableSlots := .str "[1]" }]
    (fun t ht => by
      rcases List.mem_singleton.mp ht with rfl
      exact ⟨5, by decide⟩)).2.2.2.2.1

/-! C10. -/

theorem phaseFold_get_zero (d : JSNum) (elems : List JSON) (p : String) :
    ∀ m, (elems.map phaseKey).count p = 0 → recGet (phaseFold d m elems) p = recGet m p := by
  induction elems with
  | nil => exact fun m _ => rfl
  | cons e es ih =>
    intro m h
    rw [List.map_cons, List.count_cons] at h
    by_cases hk : phaseKey e = p
    · rw [if_pos (by simp [hk])] at h
      exact absurd h (by omega)
    · rw [if_neg (by
        simp only [beq_iff_eq]
        exact fun hh => hk hh)] at h
      have hstep : phaseFold d m (e :: es) =
          phaseFold d (recSet m (phaseKey e) ((orZero (recGet m (phaseKey e))).add d)) es := rfl
      rw [hstep, ih _ (by omega), recGet_recSet_ne _ _ _ _ hk]

theorem addTaskDemand_get_of_not_mem (m : NumRecord) (t : Row) (p : String)
    (hp : p ∉ taskPhaseKeys t) :
    recGet (addTaskDemand m t) p = recGet m p := by
  unfold addTaskDemand
  unfold taskPhaseKeys at hp
  by_cases htr : t.PreferredPhases.truthy
  · rw [if_neg (by simp [htr])]
    rw [if_pos htr] at hp
    cases hj : jsonParseVal t.PreferredPhases with
    | none => rfl
    | some j =>
      cases j with
      | arr phases =>
        rw [hj] at hp
        exact phaseFold_get_zero _ phases p m (List.count_eq_zero.mpr hp)
      | null => rfl
      | bool b => rfl
      | num q => rfl
      | str s2 => rfl
      | obj fs => rfl
  · rw [if_pos (by simp [htr])]

theorem addTaskDemand_get_nan (m : NumRecord) (t : Row) (p : String)
    (hp : p ∈ taskPhaseKeys t) (hnan : toNumber t.Duration = .nan) :
    recGet (addTaskDemand m t) p = some .nan := by
  unfold addTaskDemand
  unfold taskPhaseKeys at hp
  by_cases htr : t.PreferredPhases.truthy
  · rw [if_neg (by simp [htr])]
    rw [if_pos htr] at hp
    cases hj : jsonParseVal t.PreferredPhases with
    | none =>
      rw [hj] at hp
      exact absurd hp (List.not_mem_nil p)
    | some j =>
      cases j with
      | arr phases =>
        rw [hj] at hp
        rw [hnan]
        exact (phaseFold_get_nan phases p m).1 (fun h => (List.count_eq_zero.mp h) hp)
      | null => rw [hj] at hp; exact absurd hp (List.not_mem_nil p)
      | bool b => rw [hj] at hp; exact absurd hp (List.not_mem_nil p)
      | num q => rw [hj] at hp; exact absurd hp (List.not_mem_nil p)
      | str s2 => rw [hj] at hp; exact absurd hp (List.not_mem_nil p)
      | obj fs => rw [hj] at hp; exact absurd hp (List.not_mem_nil p)
  · rw [if_neg htr] at hp
    exact absurd hp (List.not_mem_nil p)

theorem demand_fold_preserve (ts : List Row) (p : String)
    (hts : ∀ t ∈ ts, p ∉ taskPhaseKeys t) :
    ∀ m, recGet (ts.foldl addTaskDemand m) p = recGet m p := by
  induction ts with
  | nil => exact fun m => rfl
  | cons t ts ih =>
    intro m
    have hstep : (t :: ts).foldl addTaskDemand m = ts.foldl addTaskDemand (addTaskDemand m t) := rfl
    rw [hstep, ih (fun t2 h2 => hts t2 (by simp [h2])),
      addTaskDemand_get_of_not_mem m t p (hts t (by simp))]

theorem JSNum.lt_nan (x : JSNum) : JSNum.lt x .nan = false := by
  cases x <;> rfl

theorem satErr_countP_ne (D S : NumRecord) (p p2 : String) (h : p2 ≠ p) :
    (satErr D S p2).countP (mentionsPhase p) = 0 := by
  unfold satErr
  cases hd : recGet D p2 with
  | none => rfl
  | some demand =>
    show (if demand.gt (orZero (recGet S p2)) = true then
      [(⟨.tasks, .num (.fin (-1)), "PreferredPhases",
        .phaseOverbooked p2 demand (orZero (recGet S p2))⟩ : ValidationError)]
      else []).countP (mentionsPhase p) = 0
    split
    · rw [List.countP_cons, show mentionsPhase p (⟨.tasks, .num (.fin (-1)), "PreferredPhases",
        .phaseOverbooked p2 demand (orZero (recGet S p2))⟩ : ValidationError) = false from by
          show (p2 == p) = false
          simpa using h]
      rfl
    · rfl

/-- C10 counterexample: a NaN-duration task followed by a well-formed
task on the same phase.  The || 0 guard coerces the NaN accumulator back
to 0, the later task rebuilds demand 5 against supply 0, and a
Saturation error for phase 1 is emitted after all, contradicting the
claim that no error is ever emitted for the phase. -/
theorem nan_demand_not_permanent :
    validatePhaseSaturation
        [{ Duration := .str "x", PreferredPhases := .str "[1]" },
         { Duration := .str "5", PreferredPhases := .str "[1]" }] [] =
      [⟨.tasks, .num (.fin (-1)), "PreferredPhases", .phaseOverbooked "1" (.fin 5) (.fin 0)⟩] ∧
    toNumber (.str "x") = .nan ∧
    "1" ∈ taskPhaseKeys { Duration := .str "x", PreferredPhases := .str "[1]" } := by
  refine ⟨by decide, by decide, by decide⟩

/-- C10 amended: when the last task contributing to phase p has a
Duration that does not parse to a number, the accumulated demand for p
ends as NaN, the demand-exceeds-supply comparison is false, and no
Saturation error is emitted for p; a task contributing to p after the
NaN one resets the accumulator through the || 0 guard, so the protection
does not survive later well-formed demand. -/
theorem nan_last_contributor (pre post workers : List Row) (t0 : Row) (p : String)
    (hp : p ∈ taskPhaseKeys t0)
    (hnan : toNumber t0.Duration = .nan)
    (hpost : ∀ t ∈ post, p ∉ taskPhaseKeys t) :
    recGet ((pre ++ t0 :: post).foldl addTaskDemand []) p = some .nan ∧
    (validatePhaseSaturation (pre ++ t0 :: post) workers).countP (mentionsPhase p) = 0 := by
  have hdemand : recGet ((pre ++ t0 :: post).foldl addTaskDemand []) p = some .nan := by
    rw [List.foldl_append]
    show recGet ((t0 :: post).foldl addTaskDemand (pre.foldl addTaskDemand [])) p = _
    have hstep : (t0 :: post).foldl addTaskDemand (pre.foldl addTaskDemand []) =
        post.foldl addTaskDemand (addTaskDemand (pre.foldl addTaskDemand []) t0) := rfl
    rw [hstep, demand_fold_preserve post p hpost,
      addTaskDemand_get_nan _ t0 p hp hnan]
  refine ⟨hdemand, ?_⟩
  have hflat : validatePhaseSaturation (pre ++ t0 :: post) workers =
      listFlatMap
        (satErr ((pre ++ t0 :: post).foldl addTaskDemand [])
          (workers.foldl addWorkerSupply []))
        (objKeys ((pre ++ t0 :: post).foldl addTaskDemand [])) := rfl
  rw [hflat, countP_listFlatMap]
  refine List.sum_eq_zero ?_
  intro x hx
  rw [List.mem_map] at hx
  obtain ⟨p2, _, rfl⟩ := hx
  by_cases hpp : p2 = p
  · subst hpp
    simp only [satErr, hdemand, JSNum.gt, JSNum.lt_nan]
    rfl
  · exact satErr_countP_ne _ _ p p2 hpp

/-- Witness for the amended C10: a well-formed task then a NaN-duration
task on phase 1 leave the demand NaN and produce no error. -/
theorem nan_last_contributor_witness :
    (validatePhaseSaturation
        [{ Duration := .str "5", PreferredPhases := .str "[1]" },
         { Duration := .str "x", PreferredPhases := .str "[1]" }] []).countP
      (mentionsPhase "1") = 0 :=
  (nan_last_contributor [{ Duration := .str "5", PreferredPhases := .str "[1]" }] [] []
    { Duration := .str "x", PreferredPhases := .str "[1]" } "1"
    (by decide) (by decide) (fun t ht => absurd ht (List.not_mem_nil t))).2
